import Mathlib

/-!
# MarketCoach administrative scripts

A shallow embedding of `scripts/fix_screen_order.js` (order backfill) and
`scripts/import_lessons.js` (lesson importer), followed by theorems about them.

The document store is modelled by two association lists, one per collection
(`lessons/{lessonId}` and `lessons/{lessonId}/screens/{screenId}`); the order of a
list is the order in which a collection query returns its documents.  A screen
document may exist under a lesson id that has no lesson document, as in the store;
the query for the lessons does not return such an id.

The importer builds its document references from the keys of the seed file with
`.doc(id)`, which reads the identifier as a path relative to the collection: it
throws on an identifier that names no document (the empty string, `a/b`), and an
identifier of several segments (`a/b/c`) names a document of a collection further
down.  This resolution belongs to the client library and is a parameter, `docPath`,
of the importer.  The operations and the staged writes of a run record the
identifiers as they are passed to `.doc()`; the store changes where the reference
points: a document of `lessons`, a document of the `screens` of a lesson, or a
document of another collection, of which the two lists keep no record.

The store is taken to accept every operation it is sent: network and permission
failures and the limits that the server sets (reserved identifiers, names of fields,
sizes) are not modelled, so the only exceptions of a run are the ones that the
scripts meet in their own steps (a `published_at` that is not a date, an identifier
that `.doc()` rejects, a `screens` value whose entries are not documents).  The seed is typed after its schema: a lesson record is a list of
fields, each a scalar or a mapping of flat documents; a list of entries stands for
`Object.entries` of the object, whose keys are distinct.
-/

namespace MarketCoach

/-! ## Data model -/

/-- A scalar field value: a JSON scalar of the seed file or a store timestamp.
`number n` is an integer-valued JavaScript number, `infinity` is `+Infinity`;
fractional numbers are read and written by neither script and are not represented. -/
inductive Scalar where
  | null
  | bool (b : Bool)
  | number (n : Int)
  | infinity
  | string (s : String)
  | timestamp (ms : Int)
  deriving DecidableEq, Repr

/-- The data of a screen document: a flat object of scalar fields, in property order. -/
abbrev ScreenDoc := List (String × Scalar)

/-- A field of a lesson record: a scalar, or an object whose values are flat
objects (the shape of the `screens` mapping). -/
inductive Value where
  | scalar (v : Scalar)
  | map (entries : List (String × ScreenDoc))
  deriving DecidableEq, Repr

/-- A lesson record of the seed file, and the data of a lesson document. -/
abbrev LessonDoc := List (String × Value)

/-- The path `lessons/{lessonId}/screens/{screenId}` as the pair `(lessonId, screenId)`. -/
abbrev ScreenRef := String × String

/-- The two collections of the document store. -/
structure Store where
  lessons : List (String × LessonDoc)
  screens : List (ScreenRef × ScreenDoc)
  deriving DecidableEq, Repr

/-- A write staged in a `db.batch()`. -/
inductive Write where
  /-- The call `batch.update(ref, { order })`: a merge that sets the field `order`. -/
  | update (ref : ScreenRef) (order : Scalar)
  /-- The call `batch.set(ref, data)`: a full replace.  In a write of the importer the
  pair `ref` holds the identifiers of the seed as they are passed to `.doc()`. -/
  | set (ref : ScreenRef) (data : ScreenDoc)
  deriving DecidableEq, Repr

/-- An operation sent to the document store. -/
inductive Op where
  /-- The query `db.collection('lessons').get()`. -/
  | getLessons
  /-- The query `db.collection('lessons').doc(lessonId).collection('screens').get()`. -/
  | getScreens (lessonId : String)
  /-- The call `lessonRef.set(lessonDoc)` on the reference
  `db.collection('lessons').doc(lessonId)`. -/
  | setLesson (lessonId : String) (doc : LessonDoc)
  /-- The call `batch.commit()` with the writes of the batch. -/
  | commit (batch : List Write)
  deriving DecidableEq, Repr

/-- A console line; the text of the source is quoted at each constructor. -/
inductive LogLine where
  /-- The line "Error: serviceAccountKey.json not found!" and its instructions. -/
  | credentialMissing
  /-- The line "Fixing screen order fields in Firestore...". -/
  | fixing
  /-- The line "Processing lesson: lessonId". -/
  | processing (lessonId : String)
  /-- The line "No screens found". -/
  | noScreens
  /-- The line "screenId: adding order = order". -/
  | addingOrder (screenId : String) (order : Scalar)
  /-- The line "screenId: order already exists (value)". -/
  | orderExists (screenId : String) (value : Scalar)
  /-- The warning "screenId: could not extract order from ID". -/
  | cannotExtract (screenId : String)
  /-- The line "Updated updateCount screens". -/
  | updated (updateCount : Nat)
  /-- The line "All screens already have order field". -/
  | allHaveOrder
  /-- The line "Screen order fields fixed successfully!". -/
  | fixed
  /-- The line "Seed file not found: seedDataPath". -/
  | seedMissing (seedDataPath : String)
  /-- The line "Importing lessons to Firestore...". -/
  | importing
  /-- The line "Importing lesson: lessonId". -/
  | importingLesson (lessonId : String)
  /-- The line "Lesson document created". -/
  | lessonCreated
  /-- The line "screenCount screens imported". -/
  | screensImported (screenCount : Nat)
  /-- The line "lessonId imported successfully". -/
  | lessonImported (lessonId : String)
  /-- The line "All lessons imported successfully!". -/
  | allImported
  /-- The line "Import failed:" and the error, from the `catch` block. -/
  | importFailed
  deriving DecidableEq, Repr

/-- What a run leaves behind: the exit status of the process, the store, the
operations sent to the store in order, every write staged in a batch in order
(committed or not), and the console lines. -/
structure Outcome where
  exit : Nat
  store : Store
  trace : List Op
  staged : List Write
  log : List LogLine
  deriving DecidableEq, Repr

/-- The credential file `serviceAccountKey.json` at its fixed path. -/
inductive Credential where
  /-- The test `fs.existsSync(serviceAccountPath)` is false. -/
  | missing
  /-- The file exists and `require` or `admin.credential.cert` throws on it. -/
  | malformed
  /-- The file exists and the client handle is built from it. -/
  | valid
  deriving DecidableEq, Repr

/-! ## Store operations -/

/-- Merge of one field into a document: the value of an existing field is
replaced in place, a new field is added at the end. -/
def setField {β : Type} (key : String) (v : β) (doc : List (String × β)) : List (String × β) :=
  if doc.any (fun f => f.1 == key) then
    doc.map (fun f => if f.1 = key then (f.1, v) else f)
  else doc ++ [(key, v)]

/-- Full replace of the document at `ref`, created when there is none. -/
def setDoc {κ δ : Type} [DecidableEq κ] (ref : κ) (data : δ) (docs : List (κ × δ)) :
    List (κ × δ) :=
  if docs.any (fun d => d.1 == ref) then
    docs.map (fun d => if d.1 = ref then (d.1, data) else d)
  else docs ++ [(ref, data)]

/-- The effect of one write of a committed batch on the screens collection. -/
def applyWrite (screens : List (ScreenRef × ScreenDoc)) : Write → List (ScreenRef × ScreenDoc)
  | .update ref order =>
    screens.map (fun d => if d.1 = ref then (d.1, setField "order" order d.2) else d)
  | .set ref data => setDoc ref data screens

/-- The call `batch.commit()`: the writes of the batch are applied in order. -/
def commit (batch : List Write) (s : Store) : Store :=
  { s with screens := batch.foldl applyWrite s.screens }

/-! ## `fix_screen_order.js` -/

/-- The maximal run of ASCII digits at the end of the identifier. -/
def trailingDigits (screenId : String) : List Char :=
  (screenId.toList.reverse.takeWhile Char.isDigit).reverse

/-- The capture group of `screenId.match(/(\d+)$/)`: the maximal trailing run of
digits, `none` when the identifier does not end in a digit. -/
def orderMatch (screenId : String) : Option (List Char) :=
  match trailingDigits screenId with
  | [] => none
  | c :: cs => some (c :: cs)

/-- The integer that a string of decimal digits denotes in base 10. -/
def digitsValue (run : List Char) : Nat :=
  run.foldl (fun acc c => 10 * acc + (c.toNat - 48)) 0

/-- The least `k`, counted up from `k`, with `n < 2 ^ (53 + k)`. -/
def excessBits : Nat → Nat → Nat → Nat
  | 0, _, k => k
  | fuel + 1, n, k => if n < 2 ^ (53 + k) then k else excessBits fuel n (k + 1)

/-- The Number value of a natural number: the nearest double, ties to the even
significand, `+Infinity` from `2 ^ 1024` on. -/
def toNumber (n : Nat) : Scalar :=
  let ulp := 2 ^ excessBits n n 0
  let q := n / ulp
  let r := n % ulp
  let q1 := if ulp < 2 * r ∨ (2 * r = ulp ∧ q % 2 = 1) then q + 1 else q
  if q1 * ulp < 2 ^ 1024 then .number (q1 * ulp) else .infinity

/-- The call `parseInt(orderMatch[1], 10)` on a non-empty string of digits: the
Number value of the integer that the digits denote.  (Past twenty significant digits
the language lets an implementation read the further digits as zeros; the definition
reads every digit.) -/
def parseInt (run : List Char) : Scalar :=
  toNumber (digitsValue run)

/-- The state of the loop over the screens of one lesson. -/
structure ScreenLoop where
  batch : List Write
  updateCount : Nat
  log : List LogLine
  deriving DecidableEq, Repr

/-- One iteration of the loop over `screensSnapshot.docs`. -/
def screenStep (st : ScreenLoop) (screenDoc : ScreenRef × ScreenDoc) : ScreenLoop :=
  let screenId := screenDoc.1.2
  let screenData := screenDoc.2
  match orderMatch screenId with
  | some run =>
    let order := parseInt run
    match screenData.lookup "order" with
    | none =>
      { batch := st.batch ++ [Write.update screenDoc.1 order]
        updateCount := st.updateCount + 1
        log := st.log ++ [LogLine.addingOrder screenId order] }
    | some v => { st with log := st.log ++ [LogLine.orderExists screenId v] }
  | none => { st with log := st.log ++ [LogLine.cannotExtract screenId] }

/-- The loop over `screensSnapshot.docs`, from an empty batch. -/
def screenLoop (screensSnapshot : List (ScreenRef × ScreenDoc)) : ScreenLoop :=
  screensSnapshot.foldl screenStep { batch := [], updateCount := 0, log := [] }

/-- The query for the screens of a lesson. -/
def screensOf (s : Store) (lessonId : String) : List (ScreenRef × ScreenDoc) :=
  s.screens.filter (fun d => d.1.1 = lessonId)

/-- One iteration of the loop over `lessonsSnapshot.docs`. -/
def lessonStep (st : Outcome) (lessonDoc : String × LessonDoc) : Outcome :=
  let lessonId := lessonDoc.1
  let screensSnapshot := screensOf st.store lessonId
  if screensSnapshot.isEmpty then
    { st with
      trace := st.trace ++ [Op.getScreens lessonId]
      log := st.log ++ [LogLine.processing lessonId, LogLine.noScreens] }
  else
    let r := screenLoop screensSnapshot
    if 0 < r.updateCount then
      { exit := st.exit
        store := commit r.batch st.store
        trace := st.trace ++ [Op.getScreens lessonId, Op.commit r.batch]
        staged := st.staged ++ r.batch
        log := st.log ++ [LogLine.processing lessonId] ++ r.log ++ [LogLine.updated r.updateCount] }
    else
      { st with
        trace := st.trace ++ [Op.getScreens lessonId]
        staged := st.staged ++ r.batch
        log := st.log ++ [LogLine.processing lessonId] ++ r.log ++ [LogLine.allHaveOrder] }

/-- The function `fixScreenOrder`, run on a store with a client handle. -/
def fixScreenOrder (s : Store) : Outcome :=
  let st := s.lessons.foldl lessonStep
    { exit := 0, store := s, trace := [Op.getLessons], staged := [], log := [LogLine.fixing] }
  { st with log := st.log ++ [LogLine.fixed] }

/-- The script `fix_screen_order.js`: the credential check, then `fixScreenOrder`. -/
def fixScreenOrderScript (cred : Credential) (s : Store) : Outcome :=
  match cred with
  | .missing =>
    { exit := 1, store := s, trace := [], staged := [], log := [LogLine.credentialMissing] }
  | .malformed => { exit := 1, store := s, trace := [], staged := [], log := [] }
  | .valid => fixScreenOrder s

/-! ## `import_lessons.js` -/

/-- The seed object: the entries of `Object.entries(seedData)`, lesson id and lesson record. -/
abbrev Seed := List (String × LessonDoc)

/-- The test JavaScript makes of a value in a condition (`ToBoolean`). -/
def truthy : Value → Bool
  | .scalar .null => false
  | .scalar (.bool b) => b
  | .scalar (.number n) => decide (n ≠ 0)
  | .scalar .infinity => true
  | .scalar (.string s) => decide (s ≠ "")
  | .scalar (.timestamp _) => true
  | .map _ => true

/-- The entries `Object.entries(screens)` of a truthy `screens` value, when every
one of them is an object that `batch.set` accepts as document data: the entries of
a mapping, no entry for a number or a boolean, and `none` for a non-empty string or
a timestamp, whose entries are not objects, so that `batch.set` throws. -/
def screenEntries : Value → Option (List (String × ScreenDoc))
  | .map entries => some entries
  | .scalar (.string _) => none
  | .scalar (.timestamp _) => none
  | .scalar _ => some []

/-- The lesson document after the `published_at` conversion, `none` when
`Timestamp.fromDate(new Date(...))` throws.  The parameter `dateOf` is the instant,
in milliseconds, that `new Date(v)` denotes, `none` when the date is invalid or the
timestamp constructor rejects it. -/
def convertPublishedAt (dateOf : Value → Option Int) (lessonDoc : LessonDoc) : Option LessonDoc :=
  match lessonDoc.lookup "published_at" with
  | some v =>
    if truthy v then
      match dateOf v with
      | some ms => some (setField "published_at" (Value.scalar (Scalar.timestamp ms)) lessonDoc)
      | none => none
    else some lessonDoc
  | none => some lessonDoc

/-- Whether `.doc(id)` of a collection reference returns a reference, and does not
throw.  The parameter `docPath` is the resolution that `.doc(id)` makes of an
identifier: the segments of the path, relative to the collection, of the document
that the reference names, and `none` when the call throws (the empty string, a path
that names no document). -/
def accepts (docPath : String → Option (List String)) (id : String) : Bool :=
  (docPath id).isSome

/-- The scalar fields of a lesson document: what a screen document holds of it. -/
def scalarFields (doc : LessonDoc) : ScreenDoc :=
  doc.filterMap (fun f =>
    match f.2 with
    | .scalar v => some (f.1, v)
    | .map _ => none)

/-- The effect on the store of `lessonRef.set(lessonDoc)`, a full replace of the
document that `db.collection('lessons').doc(lessonId)` names: the document of
`lessons` for an identifier of one segment, the document of the `screens` of a lesson
for an identifier `a/screens/b`, a document of another collection otherwise. -/
def writeLesson (docPath : String → Option (List String)) (lessonId : String)
    (lessonDoc : LessonDoc) (s : Store) : Store :=
  match docPath lessonId with
  | some [id] => { s with lessons := setDoc id lessonDoc s.lessons }
  | some [id, collection, screenId] =>
    if collection = "screens" then
      { s with screens := setDoc (id, screenId) (scalarFields lessonDoc) s.screens }
    else s
  | _ => s

/-- The effect on the store of one write of a committed batch of the importer.  The
write `batch.set(screenRef, screenData)` is a full replace of the document that
`db.collection('lessons').doc(lessonId).collection('screens').doc(screenId)` names:
a document of the `screens` of a lesson when both identifiers have one segment, a
document of another collection otherwise. -/
def writeScreen (docPath : String → Option (List String)) (s : Store) : Write → Store
  | .set ref data =>
    match docPath ref.1, docPath ref.2 with
    | some [lessonId], some [screenId] =>
      { s with screens := setDoc (lessonId, screenId) data s.screens }
    | _, _ => s
  | .update ref order => { s with screens := applyWrite s.screens (Write.update ref order) }

/-- The call `batch.commit()` of the importer: the writes of the batch are applied in
order. -/
def commitBatch (docPath : String → Option (List String)) (batch : List Write) (s : Store) :
    Store :=
  batch.foldl (writeScreen docPath) s

/-- The loop over `Object.entries(screens)`, which stages one `batch.set` for each
entry.  `Except.error` carries the batch at the entry whose identifier
`.doc(screenId)` rejects. -/
def stageScreens (docPath : String → Option (List String)) (lessonId : String) :
    List (String × ScreenDoc) → List Write → Except (List Write) (List Write)
  | [], batch => .ok batch
  | screen :: rest, batch =>
    if accepts docPath screen.1 then
      stageScreens docPath lessonId rest (batch ++ [Write.set (lessonId, screen.1) screen.2])
    else .error batch

/-- One iteration of the loop over `Object.entries(seedData)`; `Except.error` carries
the state in which an exception leaves the loop: from the conversion of
`published_at`, from `.doc(lessonId)`, from `.doc(screenId)` or from `batch.set`. -/
def importLesson (docPath : String → Option (List String)) (dateOf : Value → Option Int)
    (st : Outcome) (entry : String × LessonDoc) : Except Outcome Outcome :=
  let lessonId := entry.1
  let lessonData := entry.2
  let screens := lessonData.lookup "screens"
  let st0 := { st with log := st.log ++ [LogLine.importingLesson lessonId] }
  match convertPublishedAt dateOf (lessonData.filter (fun f => f.1 ≠ "screens")) with
  | none => .error st0
  | some lessonDoc =>
    if accepts docPath lessonId then
      let st1 : Outcome :=
        { st0 with
          store := writeLesson docPath lessonId lessonDoc st0.store
          trace := st0.trace ++ [Op.setLesson lessonId lessonDoc]
          log := st0.log ++ [LogLine.lessonCreated] }
      match screens with
      | some v =>
        if truthy v then
          match screenEntries v with
          | none => .error st1
          | some entries =>
            match stageScreens docPath lessonId entries [] with
            | .ok batch =>
              .ok { st1 with
                    store := commitBatch docPath batch st1.store
                    trace := st1.trace ++ [Op.commit batch]
                    staged := st1.staged ++ batch
                    log := st1.log ++
                      [LogLine.screensImported entries.length, LogLine.lessonImported lessonId] }
            | .error batch => .error { st1 with staged := st1.staged ++ batch }
        else .ok { st1 with log := st1.log ++ [LogLine.lessonImported lessonId] }
      | none => .ok { st1 with log := st1.log ++ [LogLine.lessonImported lessonId] }
    else .error st0

/-- The loop over `Object.entries(seedData)`; an exception ends it. -/
def importLoop (docPath : String → Option (List String)) (dateOf : Value → Option Int) :
    Seed → Outcome → Except Outcome Outcome
  | [], st => .ok st
  | entry :: rest, st =>
    match importLesson docPath dateOf st entry with
    | .ok st1 => importLoop docPath dateOf rest st1
    | .error st1 => .error st1

/-- The function `importLessons` from the parsed seed on: the loop, then
`process.exit(0)`, or `process.exit(1)` from the `catch` block. -/
def importLessons (docPath : String → Option (List String)) (dateOf : Value → Option Int)
    (seedData : Seed) (s : Store) : Outcome :=
  match importLoop docPath dateOf seedData
      { exit := 0, store := s, trace := [], staged := [], log := [LogLine.importing] } with
  | .ok st => { st with exit := 0, log := st.log ++ [LogLine.allImported] }
  | .error st => { st with exit := 1, log := st.log ++ [LogLine.importFailed] }

/-- The path `path.join(__dirname, '..', 'rsi_lesson_seed.json')`, relative to the
directory of the script. -/
def defaultSeedPath : String := "../rsi_lesson_seed.json"

/-- The expression `process.argv[2] || defaultSeedPath`. -/
def seedDataPath (argv2 : Option String) : String :=
  match argv2 with
  | some p => if p = "" then defaultSeedPath else p
  | none => defaultSeedPath

/-- What the importer reads outside the store. -/
structure Env where
  /-- The credential file. -/
  credential : Credential
  /-- The first command-line argument. -/
  argv2 : Option String
  /-- The function `fs.existsSync`. -/
  fileExists : String → Bool
  /-- The expression `JSON.parse(fs.readFileSync(path, 'utf8'))`, `none` when it throws. -/
  readSeed : String → Option Seed

/-- The script `import_lessons.js`: the credential check, the seed file, then the import. -/
def importLessonsScript (docPath : String → Option (List String))
    (dateOf : Value → Option Int) (env : Env) (s : Store) : Outcome :=
  match env.credential with
  | .missing =>
    { exit := 1, store := s, trace := [], staged := [], log := [LogLine.credentialMissing] }
  | .malformed => { exit := 1, store := s, trace := [], staged := [], log := [] }
  | .valid =>
    if env.fileExists (seedDataPath env.argv2) then
      match env.readSeed (seedDataPath env.argv2) with
      | some seedData => importLessons docPath dateOf seedData s
      | none => { exit := 1, store := s, trace := [], staged := [], log := [LogLine.importFailed] }
    else
      { exit := 1, store := s, trace := [], staged := []
        log := [LogLine.seedMissing (seedDataPath env.argv2)] }

/-! ## Auxiliary definitions for the proofs -/

/-- The write that one iteration of the screens loop stages for a document, if any. -/
def stagedFor (d : ScreenRef × ScreenDoc) : Option Write :=
  match orderMatch d.1.2 with
  | some run =>
    match d.2.lookup "order" with
    | none => some (Write.update d.1 (parseInt run))
    | some _ => none
  | none => none

/-- The console line that one iteration of the screens loop prints for a document. -/
def lineFor (d : ScreenRef × ScreenDoc) : LogLine :=
  match orderMatch d.1.2 with
  | some run =>
    match d.2.lookup "order" with
    | none => LogLine.addingOrder d.1.2 (parseInt run)
    | some v => LogLine.orderExists d.1.2 v
  | none => LogLine.cannotExtract d.1.2

/-- The document with `order` set from its identifier, when the identifier ends in a digit. -/
def fill (d : ScreenRef × ScreenDoc) : ScreenRef × ScreenDoc :=
  match orderMatch d.1.2 with
  | some run => (d.1, setField "order" (parseInt run) d.2)
  | none => d

/-- Whether a write is staged for the path `ref` when the loop runs over `docs`. -/
def needs (docs : List (ScreenRef × ScreenDoc)) (ref : ScreenRef) : Bool :=
  docs.any (fun c => decide (c.1 = ref) && (stagedFor c).isSome)

/-- The document after the backfill of the lessons `ids` on the screens `docs`. -/
def backfill (ids : List String) (docs : List (ScreenRef × ScreenDoc))
    (d : ScreenRef × ScreenDoc) : ScreenRef × ScreenDoc :=
  if d.1.1 ∈ ids ∧ needs docs d.1 = true then fill d else d

/-- The path of the document that a staged write is for. -/
def Write.ref : Write → ScreenRef
  | .update ref _ => ref
  | .set ref _ => ref

/-- The base-10 integer value of a string of digits, in the words of the spec: the
digit `i` places from the end has weight `10 ^ i`, so that leading zeros add nothing. -/
def base10Value (run : List Char) : Nat :=
  Nat.ofDigits 10 ((run.map (fun c => c.toNat - 48)).reverse)

/-- A store for the backfill: one lesson with a screen whose identifier ends in a
run of seventeen digits and has no `order` field. -/
def longIdStore : Store :=
  { lessons := [("L1", [("title", Value.scalar (Scalar.string "Intro"))])]
    screens := [(("L1", "s9007199254740993"), [("text", Scalar.string "a")])] }

/-- The store of end-to-end scenario 2, with a screen whose `order` is 0 and a screen
whose identifier does not end in a digit. -/
def scenario2Store : Store :=
  { lessons := [("L1", [("title", Value.scalar (Scalar.string "Intro"))])]
    screens :=
      [(("L1", "screen_003"), [("text", Scalar.string "a")]),
       (("L1", "screen_004"), [("order", Scalar.number 99)]),
       (("L1", "screen_005"), [("order", Scalar.number 0)]),
       (("L1", "screen_01b"), [("text", Scalar.string "b")])] }

/-! ## Auxiliary definitions for the proofs about the importer -/

/-- A sequence of full replaces applied to a collection, in order. -/
def applySets {κ δ : Type} [DecidableEq κ] (ws : List (κ × δ)) (docs : List (κ × δ)) :
    List (κ × δ) :=
  ws.foldl (fun l w => setDoc w.1 w.2 l) docs

/-- The effect of a full replace at `ref` on one document of the collection. -/
def setOne {κ δ : Type} [DecidableEq κ] (ref : κ) (data : δ) (d : κ × δ) : κ × δ :=
  if d.1 = ref then (d.1, data) else d

/-- The effect of a sequence of full replaces on one document of the collection. -/
def setAll {κ δ : Type} [DecidableEq κ] (ws : List (κ × δ)) (d : κ × δ) : κ × δ :=
  ws.foldl (fun e w => setOne w.1 w.2 e) d

/-- The documents that a sequence of full replaces creates in a collection whose
paths are `paths`, in the order of their creation. -/
def created {κ δ : Type} [DecidableEq κ] : List (κ × δ) → List κ → List (κ × δ)
  | [], _ => []
  | w :: ws, paths =>
    if w.1 ∈ paths then created ws paths else setAll ws w :: created ws (paths ++ [w.1])

/-- The batch that the importer stages for the entries of a `screens` mapping. -/
def screenBatch (lessonId : String) (entries : List (String × ScreenDoc)) : List Write :=
  entries.map (fun e => Write.set (lessonId, e.1) e.2)

/-- The operations that the import of one seed entry sends to the store, and whether
the iteration ends without an exception; `validId` is the test of the identifiers
that `.doc()` makes. -/
def entryOps (validId : String → Bool) (dateOf : Value → Option Int)
    (entry : String × LessonDoc) : List Op × Bool :=
  match convertPublishedAt dateOf (entry.2.filter (fun f => f.1 ≠ "screens")) with
  | none => ([], false)
  | some lessonDoc =>
    if validId entry.1 then
      match entry.2.lookup "screens" with
      | some v =>
        if truthy v then
          match screenEntries v with
          | none => ([Op.setLesson entry.1 lessonDoc], false)
          | some entries =>
            if entries.all (fun e => validId e.1) then
              ([Op.setLesson entry.1 lessonDoc, Op.commit (screenBatch entry.1 entries)], true)
            else ([Op.setLesson entry.1 lessonDoc], false)
        else ([Op.setLesson entry.1 lessonDoc], true)
      | none => ([Op.setLesson entry.1 lessonDoc], true)
    else ([], false)

/-- The writes that the import of one seed entry stages, committed or not. -/
def entryStaged (validId : String → Bool) (dateOf : Value → Option Int)
    (entry : String × LessonDoc) : List Write :=
  match convertPublishedAt dateOf (entry.2.filter (fun f => f.1 ≠ "screens")) with
  | none => []
  | some _ =>
    if validId entry.1 then
      match entry.2.lookup "screens" with
      | some v =>
        if truthy v then
          match screenEntries v with
          | none => []
          | some entries => screenBatch entry.1 (entries.takeWhile (fun e => validId e.1))
        else []
      | none => []
    else []

/-- The operations that the import of a seed sends to the store, and whether the loop
ends without an exception. -/
def seedOps (validId : String → Bool) (dateOf : Value → Option Int) : Seed → List Op × Bool
  | [] => ([], true)
  | entry :: rest =>
    if (entryOps validId dateOf entry).2 then
      ((entryOps validId dateOf entry).1 ++ (seedOps validId dateOf rest).1,
        (seedOps validId dateOf rest).2)
    else ((entryOps validId dateOf entry).1, false)

/-- The writes that the import of a seed stages, committed or not. -/
def seedStaged (validId : String → Bool) (dateOf : Value → Option Int) : Seed → List Write
  | [] => []
  | entry :: rest =>
    if (entryOps validId dateOf entry).2 then
      entryStaged validId dateOf entry ++ seedStaged validId dateOf rest
    else entryStaged validId dateOf entry

/-- The effect on the store of one operation of the importer. -/
def applyOp (docPath : String → Option (List String)) (s : Store) : Op → Store
  | .getLessons => s
  | .getScreens _ => s
  | .setLesson lessonId doc => writeLesson docPath lessonId doc s
  | .commit batch => commitBatch docPath batch s

/-- The effect on the store of a sequence of operations of the importer. -/
def replay (docPath : String → Option (List String)) (ops : List Op) (s : Store) : Store :=
  ops.foldl (applyOp docPath) s

/-- The writes of the batches that a sequence of operations commits. -/
def committed : List Op → List Write
  | [] => []
  | .commit batch :: ops => batch ++ committed ops
  | _ :: ops => committed ops

/-- The full replace of a document of `lessons` that a lesson write makes, if any. -/
def lessonPut (docPath : String → Option (List String)) (lessonId : String) (doc : LessonDoc) :
    List (String × LessonDoc) :=
  match docPath lessonId with
  | some [id] => [(id, doc)]
  | _ => []

/-- The full replace of a screen document that a lesson write makes, if any. -/
def strayPut (docPath : String → Option (List String)) (lessonId : String) (doc : LessonDoc) :
    List (ScreenRef × ScreenDoc) :=
  match docPath lessonId with
  | some [id, collection, screenId] =>
    if collection = "screens" then [((id, screenId), scalarFields doc)] else []
  | _ => []

/-- The full replace of a screen document that a write of a batch makes, if any. -/
def screenPut (docPath : String → Option (List String)) (ref : ScreenRef) (data : ScreenDoc) :
    List (ScreenRef × ScreenDoc) :=
  match docPath ref.1, docPath ref.2 with
  | some [lessonId], some [screenId] => [((lessonId, screenId), data)]
  | _, _ => []

/-- The full replaces of documents of `lessons` in a sequence of operations. -/
def lessonSets (docPath : String → Option (List String)) : List Op → List (String × LessonDoc)
  | [] => []
  | .setLesson lessonId doc :: ops => lessonPut docPath lessonId doc ++ lessonSets docPath ops
  | _ :: ops => lessonSets docPath ops

/-- The full replaces of screen documents in a list of writes. -/
def batchSets (docPath : String → Option (List String)) :
    List Write → List (ScreenRef × ScreenDoc)
  | [] => []
  | .set ref data :: ws => screenPut docPath ref data ++ batchSets docPath ws
  | _ :: ws => batchSets docPath ws

/-- The full replaces of screen documents in a sequence of operations. -/
def screenSets (docPath : String → Option (List String)) :
    List Op → List (ScreenRef × ScreenDoc)
  | [] => []
  | .setLesson lessonId doc :: ops => strayPut docPath lessonId doc ++ screenSets docPath ops
  | .commit batch :: ops => batchSets docPath batch ++ screenSets docPath ops
  | _ :: ops => screenSets docPath ops

/-- The record without its `screens` field: the rest of `{ screens, ...lessonDoc }`. -/
def withoutScreens (record : LessonDoc) : LessonDoc :=
  record.filter (fun f => f.1 ≠ "screens")

/-- A conversion of dates for the examples: the string `2024-01-15T00:00:00Z` denotes
the instant 1705276800000 ms after the epoch, and no other value is a date. -/
def sampleDateOf (v : Value) : Option Int :=
  if v = Value.scalar (Scalar.string "2024-01-15T00:00:00Z") then some 1705276800000 else none

/-- The store with no document. -/
def emptyStore : Store := { lessons := [], screens := [] }

/-- The seed of end-to-end scenario 1. -/
def scenario1Seed : Seed :=
  [("L1",
    [("title", Value.scalar (Scalar.string "Intro")),
     ("screens", Value.map
        [("screen_001", [("text", Scalar.string "a")]),
         ("screen_002", [("text", Scalar.string "b")])])])]

/-- A seed with a lesson whose `published_at` is a date and a lesson without one. -/
def datedSeed : Seed :=
  [("L1",
    [("title", Value.scalar (Scalar.string "Intro")),
     ("published_at", Value.scalar (Scalar.string "2024-01-15T00:00:00Z"))]),
   ("L2", [("title", Value.scalar (Scalar.string "Draft"))])]

/-- A seed with a lesson whose `published_at` is the empty string. -/
def emptyDateSeed : Seed :=
  [("L1",
    [("title", Value.scalar (Scalar.string "Intro")),
     ("published_at", Value.scalar (Scalar.string ""))])]

/-- An environment without the credential file, with a seed file at the default path. -/
def noCredentialEnv : Env :=
  { credential := Credential.missing
    argv2 := none
    fileExists := fun path => decide (path = defaultSeedPath)
    readSeed := fun path => if path = defaultSeedPath then some scenario1Seed else none }

/-- A lesson record with a field `level` and a `screens` mapping. -/
def staleRecord : LessonDoc :=
  [("title", Value.scalar (Scalar.string "Old")),
   ("level", Value.scalar (Scalar.number 2)),
   ("screens", Value.map [("screen_001", [("text", Scalar.string "a")])])]

/-- A lesson record with the field `title` alone. -/
def freshRecord : LessonDoc :=
  [("title", Value.scalar (Scalar.string "New"))]

/-- Whether two slashes follow each other in the identifier. -/
def hasDoubleSlash : List Char → Bool
  | [] => false
  | c :: cs => (decide (c = '/') && decide (cs.head? = some '/')) || hasDoubleSlash cs

/-- The segments of the identifier between slashes, empty ones left out; `segment`
holds the characters of the segment that is read, last one first. -/
def splitSegments : List Char → List Char → List String
  | [], segment => if segment = [] then [] else [String.mk segment.reverse]
  | c :: cs, segment =>
    if c = '/' then
      if segment = [] then splitSegments cs []
      else String.mk segment.reverse :: splitSegments cs []
    else splitSegments cs (c :: segment)

/-- A resolution of identifiers for the examples, after the client library: `.doc(id)`
of a collection throws on the empty string, on a path with `//`, and on a path with
an even number of segments, which names a collection; a slash at either end is
left out. -/
def sampleDocPath (id : String) : Option (List String) :=
  if id = "" then none
  else if hasDoubleSlash id.toList then none
  else if (splitSegments id.toList []).length % 2 = 1 then some (splitSegments id.toList [])
  else none

/-- A seed whose first lesson has a `published_at` that is no date. -/
def badDateSeed : Seed :=
  [("L1",
    [("title", Value.scalar (Scalar.string "Intro")),
     ("published_at", Value.scalar (Scalar.string "not a date"))]),
   ("L2", [("title", Value.scalar (Scalar.string "Draft"))])]

/-- A seed whose lesson has a screen with the identifier `a/b`, which names no document
of the `screens` collection. -/
def badScreenSeed : Seed :=
  [("L1",
    [("title", Value.scalar (Scalar.string "Intro")),
     ("screens", Value.map
        [("screen_001", [("text", Scalar.string "a")]),
         ("a/b", [("text", Scalar.string "b")])])])]

/-- A seed whose lesson has the empty identifier. -/
def emptyIdSeed : Seed :=
  [("", [("title", Value.scalar (Scalar.string "Intro"))])]

/-- A lesson record whose `published_at` is no date. -/
def undatedRecord : LessonDoc :=
  [("title", Value.scalar (Scalar.string "New")),
   ("published_at", Value.scalar (Scalar.string "not a date"))]

/-- The operations of the spec for a seed entry whose lesson document is `doc`: the
write of the lesson document (step 3), then the commit of one batch that holds one
write for each entry of the `screens` mapping, in order (steps 4 and 5); a truthy
`screens` that is no mapping has no entry, a falsy one and a record without `screens`
have no batch. -/
def specOps (entry : String × LessonDoc) (doc : LessonDoc) : List Op :=
  Op.setLesson entry.1 doc ::
    match entry.2.lookup "screens" with
    | some (Value.map entries) =>
      [Op.commit (entries.map (fun e => Write.set (entry.1, e.1) e.2))]
    | some (Value.scalar v) => if truthy (Value.scalar v) then [Op.commit []] else []
    | none => []

/-- The entries of the `screens` mapping of a record; a record without the field, or
with a `screens` that is no mapping, has none. -/
def mappingOf (record : LessonDoc) : List (String × ScreenDoc) :=
  match record.lookup "screens" with
  | some (Value.map entries) => entries
  | _ => []

/-- The writes of the spec for a seed: for every lesson entry in order, one write for
each entry of its `screens` mapping in order, of the data of the entry at
`lessons/{lessonId}/screens/{screenId}`. -/
def seedWrites (seed : Seed) : List Write :=
  (seed.map (fun entry => screenBatch entry.1 (mappingOf entry.2))).flatten

/-- The segments after `lessons` of the path of the document that the reference
`db.collection('lessons').doc(lessonId).collection('screens').doc(screenId)` names,
`none` when `.doc()` rejects one of the identifiers. -/
def refPath (docPath : String → Option (List String)) (ref : ScreenRef) : Option (List String) :=
  match docPath ref.1, docPath ref.2 with
  | some lessonPath, some screenPath => some (lessonPath ++ "screens" :: screenPath)
  | _, _ => none

/-- A seed whose lesson identifier `a/b/c` names a document of another collection. -/
def deepSeed : Seed :=
  [("a/b/c", [("title", Value.scalar (Scalar.string "Intro"))])]

/-- A seed whose lesson identifier names the screen `s1` of the lesson `L1`. -/
def straySeed : Seed :=
  [("L1/screens/s1", [("title", Value.scalar (Scalar.string "Intro"))])]

/-- A seed with two screen identifiers, `s` and `s/`, that name one document, and a
screen identifier that names a document of another collection. -/
def aliasSeed : Seed :=
  [("L1",
    [("screens", Value.map
        [("s", [("text", Scalar.string "a")]),
         ("s/", [("text", Scalar.string "b")]),
         ("x/y/z", [("text", Scalar.string "c")])])])]

/-- The lesson document `doc` holds the fields of `record` other than `screens`, in
the words of the spec: the names of those fields in their order, no field `screens`,
the value of the record for every field but `published_at`, and for `published_at`
the value of the record when it is falsy and the timestamp of its date when it is
truthy. -/
def HoldsFieldsOf (dateOf : Value → Option Int) (record doc : LessonDoc) : Prop :=
  doc.map Prod.fst = (withoutScreens record).map Prod.fst ∧
  doc.lookup "screens" = none ∧
  (∀ k, k ≠ "screens" → k ≠ "published_at" → doc.lookup k = record.lookup k) ∧
  (record.lookup "published_at" = none → doc = withoutScreens record) ∧
  (∀ v, record.lookup "published_at" = some v → truthy v = false →
    doc = withoutScreens record) ∧
  (∀ v, record.lookup "published_at" = some v → truthy v = true →
    ∃ ms, dateOf v = some ms ∧
      doc.lookup "published_at" = some (Value.scalar (Scalar.timestamp ms)))

/-- A store with a screen under the lesson id `L9`, which has no lesson document. -/
def orphanStore : Store :=
  { lessons := [("L1", [("title", Value.scalar (Scalar.string "Intro"))])]
    screens := [(("L9", "screen_001"), [("text", Scalar.string "a")]),
                (("L9", "intro"), [("text", Scalar.string "b")])] }

/-! # Theorems -/

/-! ## Fields of a document -/

theorem lookup_map_set {β : Type} (key k : String) (v : β) (doc : List (String × β)) :
    (doc.map (fun f => if f.1 = key then (f.1, v) else f)).lookup k =
      if k = key then (doc.lookup k).map (fun _ => v) else doc.lookup k := by
  induction doc with
  | nil => simp
  | cons f fs ih =>
    obtain ⟨fk, fv⟩ := f
    by_cases hf : fk = key
    · by_cases hk : k = key
      · subst hf; subst hk
        simp [List.lookup_cons]
      · have hne : (k == fk) = false := by
          rw [beq_eq_false_iff_ne]; rw [hf]; exact hk
        simp only [List.map_cons, hf, if_true, List.lookup_cons, hk, if_false] at ih ⊢
        rw [← hf, hne]; simpa [hf, hk] using ih
    · by_cases hkf : k = fk
      · subst hkf
        simp [List.lookup_cons, hf]
      · have hne : (k == fk) = false := by
          rw [beq_eq_false_iff_ne]; exact hkf
        simp only [List.map_cons, hf, if_false, List.lookup_cons, hne]
        exact ih

theorem lookup_append_single {β : Type} (key k : String) (v : β) (doc : List (String × β)) :
    (doc ++ [(key, v)]).lookup k =
      match doc.lookup k with
      | some w => some w
      | none => if k = key then some v else none := by
  induction doc with
  | nil =>
    by_cases hk : k = key
    · subst hk; simp [List.lookup_cons]
    · have hne : (k == key) = false := by rw [beq_eq_false_iff_ne]; exact hk
      simp [List.lookup_cons, hne, hk]
  | cons f fs ih =>
    obtain ⟨fk, fv⟩ := f
    by_cases hkf : k = fk
    · subst hkf; simp [List.lookup_cons]
    · have hne : (k == fk) = false := by rw [beq_eq_false_iff_ne]; exact hkf
      simp only [List.cons_append, List.lookup_cons, hne]
      exact ih

theorem lookup_eq_none_of_not_any {β : Type} (key : String) (doc : List (String × β))
    (h : ¬ doc.any (fun f => f.1 == key) = true) : doc.lookup key = none := by
  induction doc with
  | nil => rfl
  | cons f fs ih =>
    obtain ⟨fk, fv⟩ := f
    simp only [List.any_cons, Bool.or_eq_true, not_or] at h
    have hne : (key == fk) = false := by
      rw [beq_eq_false_iff_ne]; intro hk; apply h.1; simp [hk]
    simp only [List.lookup_cons, hne]
    exact ih h.2

theorem lookup_isSome_of_any {β : Type} (key : String) (doc : List (String × β))
    (h : doc.any (fun f => f.1 == key) = true) : ∃ w, doc.lookup key = some w := by
  induction doc with
  | nil => simp at h
  | cons f fs ih =>
    obtain ⟨fk, fv⟩ := f
    by_cases hk : key = fk
    · subst hk; exact ⟨fv, by simp [List.lookup_cons]⟩
    · have hne : (key == fk) = false := by rw [beq_eq_false_iff_ne]; exact hk
      have h2 : fs.any (fun f => f.1 == key) = true := by
        simp only [List.any_cons, Bool.or_eq_true] at h
        rcases h with h | h
        · exact absurd (by simpa using h) (fun e : fk = key => hk e.symm)
        · exact h
      obtain ⟨w, hw⟩ := ih h2
      exact ⟨w, by simp only [List.lookup_cons, hne]; exact hw⟩

theorem lookup_setField_self {β : Type} (key : String) (v : β) (doc : List (String × β)) :
    (setField key v doc).lookup key = some v := by
  unfold setField
  split
  · rename_i h
    obtain ⟨w, hw⟩ := lookup_isSome_of_any key doc h
    rw [lookup_map_set, if_pos rfl, hw]; rfl
  · rename_i h
    rw [lookup_append_single, lookup_eq_none_of_not_any key doc h]; simp

theorem lookup_setField_ne {β : Type} (key k : String) (v : β) (doc : List (String × β))
    (hk : k ≠ key) : (setField key v doc).lookup k = doc.lookup k := by
  unfold setField
  split
  · rw [lookup_map_set, if_neg hk]
  · rw [lookup_append_single]
    cases doc.lookup k with
    | none => simp [hk]
    | some w => rfl

theorem keys_map_set {β : Type} (key : String) (v : β) (doc : List (String × β)) :
    (doc.map (fun f => if f.1 = key then (f.1, v) else f)).map Prod.fst = doc.map Prod.fst := by
  rw [List.map_map]
  apply List.map_congr_left
  intro f _
  by_cases hf : f.1 = key <;> simp [hf]

theorem setField_of_any {β : Type} (key : String) (v : β) (doc : List (String × β))
    (h : doc.any (fun f => f.1 == key) = true) :
    setField key v doc = doc.map (fun f => if f.1 = key then (f.1, v) else f) := by
  unfold setField; rw [if_pos h]

theorem setField_of_not_any {β : Type} (key : String) (v : β) (doc : List (String × β))
    (h : ¬ doc.any (fun f => f.1 == key) = true) :
    setField key v doc = doc ++ [(key, v)] := by
  unfold setField; rw [if_neg h]

theorem any_setField {β : Type} (key : String) (v : β) (doc : List (String × β)) :
    (setField key v doc).any (fun f => f.1 == key) = true := by
  by_contra h
  have := lookup_eq_none_of_not_any key _ h
  rw [lookup_setField_self] at this
  exact absurd this (by simp)

theorem setField_idem {β : Type} (key : String) (v : β) (doc : List (String × β)) :
    setField key v (setField key v doc) = setField key v doc := by
  rw [setField_of_any key v (setField key v doc) (any_setField key v doc)]
  by_cases h : doc.any (fun f => f.1 == key) = true
  · rw [setField_of_any key v doc h, List.map_map]
    apply List.map_congr_left
    intro f _
    by_cases hf : f.1 = key <;> simp [hf]
  · rw [setField_of_not_any key v doc h, List.map_append]
    congr 1
    · conv_rhs => rw [← List.map_id doc]
      apply List.map_congr_left
      intro f hfm
      have hf : ¬ f.1 = key := by
        intro hf; apply h
        rw [List.any_eq_true]; exact ⟨f, hfm, by simp [hf]⟩
      simp [hf]
    · simp

/-! ## The loop over the screens of a lesson -/

theorem screenStep_eq (st : ScreenLoop) (d : ScreenRef × ScreenDoc) :
    screenStep st d =
      { batch := st.batch ++ (stagedFor d).toList
        updateCount := st.updateCount + (stagedFor d).toList.length
        log := st.log ++ [lineFor d] } := by
  simp only [screenStep, stagedFor, lineFor]
  cases h : orderMatch d.1.2 with
  | none => simp
  | some run =>
    cases hl : List.lookup "order" d.2 with
    | none => simp
    | some v => simp

theorem foldl_screenStep (docs : List (ScreenRef × ScreenDoc)) (st : ScreenLoop) :
    docs.foldl screenStep st =
      { batch := st.batch ++ docs.filterMap stagedFor
        updateCount := st.updateCount + (docs.filterMap stagedFor).length
        log := st.log ++ docs.map lineFor } := by
  induction docs generalizing st with
  | nil => simp
  | cons d ds ih =>
    rw [List.foldl_cons, ih, screenStep_eq]
    cases h : stagedFor d with
    | none => simp [List.filterMap_cons, h]
    | some w =>
      simp only [List.filterMap_cons, h, Option.toList, List.append_assoc, List.singleton_append,
        List.length_cons, List.length_nil, List.map_cons, ScreenLoop.mk.injEq, true_and, and_true]
      omega

theorem screenLoop_eq (docs : List (ScreenRef × ScreenDoc)) :
    screenLoop docs =
      { batch := docs.filterMap stagedFor
        updateCount := (docs.filterMap stagedFor).length
        log := docs.map lineFor } := by
  unfold screenLoop
  rw [foldl_screenStep]; simp

theorem fill_fst (d : ScreenRef × ScreenDoc) : (fill d).1 = d.1 := by
  unfold fill
  cases orderMatch d.1.2 <;> rfl

theorem stagedFor_fill (d : ScreenRef × ScreenDoc) : stagedFor (fill d) = none := by
  unfold fill
  cases h : orderMatch d.1.2 with
  | none => simp [stagedFor, h]
  | some run => simp [stagedFor, h, lookup_setField_self]

theorem fill_fill (d : ScreenRef × ScreenDoc) : fill (fill d) = fill d := by
  unfold fill
  cases h : orderMatch d.1.2 with
  | none => simp [h]
  | some run => simp [h, setField_idem]

theorem fill_of_stagedFor {d : ScreenRef × ScreenDoc} {ref : ScreenRef} {order : Scalar}
    (h : stagedFor d = some (Write.update ref order)) (c : ScreenRef × ScreenDoc)
    (hc : c.1 = d.1) : fill c = (c.1, setField "order" order c.2) := by
  unfold stagedFor at h
  unfold fill
  rw [hc]
  cases hm : orderMatch d.1.2 with
  | none => simp [hm] at h
  | some run =>
    rw [hm] at h
    cases hl : List.lookup "order" d.2 with
    | none =>
      rw [hl] at h
      simp only [Option.some.injEq, Write.update.injEq] at h
      simp [h.2]
    | some v => rw [hl] at h; simp at h

theorem stagedFor_eq_update {d : ScreenRef × ScreenDoc} {w : Write} (h : stagedFor d = some w) :
    ∃ run, orderMatch d.1.2 = some run ∧ List.lookup "order" d.2 = none ∧
      w = Write.update d.1 (parseInt run) := by
  unfold stagedFor at h
  cases hm : orderMatch d.1.2 with
  | none => simp [hm] at h
  | some run =>
    rw [hm] at h
    cases hl : List.lookup "order" d.2 with
    | none =>
      rw [hl] at h
      simp only [Option.some.injEq] at h
      exact ⟨run, rfl, rfl, h.symm⟩
    | some v => rw [hl] at h; simp at h

theorem needs_cons (c : ScreenRef × ScreenDoc) (cs : List (ScreenRef × ScreenDoc))
    (ref : ScreenRef) :
    needs (c :: cs) ref = ((decide (c.1 = ref) && (stagedFor c).isSome) || needs cs ref) := by
  simp [needs]

/-- A committed batch of the backfill sets `order` on the documents it has a write for. -/
theorem foldl_applyWrite_staged (docs : List (ScreenRef × ScreenDoc))
    (screens : List (ScreenRef × ScreenDoc)) :
    (docs.filterMap stagedFor).foldl applyWrite screens =
      screens.map (fun d => if needs docs d.1 = true then fill d else d) := by
  induction docs generalizing screens with
  | nil => simp [needs]
  | cons c cs ih =>
    cases h : stagedFor c with
    | none =>
      rw [List.filterMap_cons, h]
      simp only
      rw [ih]
      apply List.map_congr_left
      intro d _
      rw [needs_cons, h]; simp
    | some w =>
      rw [List.filterMap_cons, h]
      simp only [List.foldl_cons]
      rw [ih]
      obtain ⟨run, hm, hl, hw⟩ := stagedFor_eq_update h
      subst hw
      simp only [applyWrite, List.map_map]
      apply List.map_congr_left
      intro d _
      simp only [Function.comp]
      rw [needs_cons, h]
      by_cases hd : d.1 = c.1
      · have hf := fill_of_stagedFor h d hd
        rw [if_pos hd, ← hf, fill_fst, fill_fill]
        simp [hd]
      · have hd2 : ¬ c.1 = d.1 := fun e => hd e.symm
        rw [if_neg hd]
        simp [hd2]

/-! ## One lesson of the backfill -/

theorem commit_staged (docs : List (ScreenRef × ScreenDoc)) (s : Store) :
    commit (docs.filterMap stagedFor) s =
      { lessons := s.lessons
        screens := s.screens.map (fun d => if needs docs d.1 = true then fill d else d) } := by
  unfold commit
  rw [foldl_applyWrite_staged]

theorem needs_false_of_filterMap_nil (docs : List (ScreenRef × ScreenDoc))
    (h : docs.filterMap stagedFor = []) (ref : ScreenRef) : needs docs ref = false := by
  unfold needs
  rw [Bool.eq_false_iff]
  intro hany
  rw [List.any_eq_true] at hany
  obtain ⟨c, hc, hcond⟩ := hany
  simp only [Bool.and_eq_true, decide_eq_true_eq] at hcond
  obtain ⟨w, hw⟩ := Option.isSome_iff_exists.mp hcond.2
  have : w ∈ docs.filterMap stagedFor := List.mem_filterMap.mpr ⟨c, hc, hw⟩
  rw [h] at this
  exact absurd this (List.not_mem_nil w)

theorem lessonStep_exit (st : Outcome) (l : String × LessonDoc) :
    (lessonStep st l).exit = st.exit := by
  unfold lessonStep
  simp only
  split
  · rfl
  · split <;> rfl

theorem lessonStep_staged (st : Outcome) (l : String × LessonDoc) :
    (lessonStep st l).staged = st.staged ++ (screensOf st.store l.1).filterMap stagedFor := by
  unfold lessonStep
  simp only [screenLoop_eq]
  split
  · rename_i h
    rw [List.isEmpty_iff] at h
    simp [h]
  · split <;> rfl

theorem lessonStep_store (st : Outcome) (l : String × LessonDoc) :
    (lessonStep st l).store =
      { lessons := st.store.lessons
        screens := st.store.screens.map
          (fun d => if needs (screensOf st.store l.1) d.1 = true then fill d else d) } := by
  have hid : ∀ (docs : List (ScreenRef × ScreenDoc)), docs.filterMap stagedFor = [] →
      st.store = { lessons := st.store.lessons
                   screens := st.store.screens.map
                    (fun d => if needs docs d.1 = true then fill d else d) } := by
    intro docs h
    have : st.store.screens.map (fun d => if needs docs d.1 = true then fill d else d)
        = st.store.screens := by
      conv_rhs => rw [← List.map_id st.store.screens]
      apply List.map_congr_left
      intro d _
      rw [needs_false_of_filterMap_nil docs h]; simp
    rw [this]
  unfold lessonStep
  simp only [screenLoop_eq]
  split
  · rename_i h
    rw [List.isEmpty_iff] at h
    exact hid _ (by rw [h]; rfl)
  · split
    · simp only
      rw [commit_staged]
    · rename_i h
      simp only
      exact hid _ (List.length_eq_zero.mp (by omega))

theorem lessonStep_trace (st : Outcome) (l : String × LessonDoc) :
    (lessonStep st l).trace =
      st.trace ++ Op.getScreens l.1 ::
        (if (screensOf st.store l.1).filterMap stagedFor = [] then []
         else [Op.commit ((screensOf st.store l.1).filterMap stagedFor)]) := by
  unfold lessonStep
  simp only [screenLoop_eq]
  split
  · rename_i h
    rw [List.isEmpty_iff] at h
    simp [h]
  · split
    · rename_i h
      have hne : ¬ (screensOf st.store l.1).filterMap stagedFor = [] := by
        intro e; rw [e] at h; simp at h
      simp [hne]
    · rename_i h
      have he : (screensOf st.store l.1).filterMap stagedFor = [] :=
        List.length_eq_zero.mp (by omega)
      simp [he]

theorem lessonStep_log (st : Outcome) (l : String × LessonDoc) :
    ∃ tail, (lessonStep st l).log =
      st.log ++ LogLine.processing l.1 :: ((screensOf st.store l.1).map lineFor ++ tail) := by
  unfold lessonStep
  simp only [screenLoop_eq]
  split
  · rename_i h
    rw [List.isEmpty_iff] at h
    exact ⟨[LogLine.noScreens], by simp [h]⟩
  · split
    · exact ⟨[LogLine.updated ((screensOf st.store l.1).filterMap stagedFor).length], by simp⟩
    · exact ⟨[LogLine.allHaveOrder], by simp⟩

/-! ## The loop over the lessons -/

theorem needs_iff (docs : List (ScreenRef × ScreenDoc)) (ref : ScreenRef) :
    needs docs ref = true ↔ ∃ c ∈ docs, c.1 = ref ∧ ∃ w, stagedFor c = some w := by
  unfold needs
  rw [List.any_eq_true]
  constructor
  · rintro ⟨c, hc, hcond⟩
    simp only [Bool.and_eq_true, decide_eq_true_eq] at hcond
    exact ⟨c, hc, hcond.1, Option.isSome_iff_exists.mp hcond.2⟩
  · rintro ⟨c, hc, hr, hw⟩
    refine ⟨c, hc, ?_⟩
    simp only [Bool.and_eq_true, decide_eq_true_eq]
    exact ⟨hr, Option.isSome_iff_exists.mpr hw⟩

theorem backfill_fst (ids : List String) (docs : List (ScreenRef × ScreenDoc))
    (d : ScreenRef × ScreenDoc) : (backfill ids docs d).1 = d.1 := by
  unfold backfill
  split
  · exact fill_fst d
  · rfl

theorem stagedFor_backfill (ids : List String) (docs : List (ScreenRef × ScreenDoc))
    (c : ScreenRef × ScreenDoc) (hc : c ∈ docs) :
    stagedFor (backfill ids docs c) = if c.1.1 ∈ ids then none else stagedFor c := by
  unfold backfill
  by_cases hid : c.1.1 ∈ ids
  · rw [if_pos hid]
    by_cases hn : needs docs c.1 = true
    · rw [if_pos ⟨hid, hn⟩]; exact stagedFor_fill c
    · rw [if_neg (fun h => hn h.2)]
      cases hs : stagedFor c with
      | none => rfl
      | some w => exact absurd ((needs_iff docs c.1).mpr ⟨c, hc, rfl, w, hs⟩) hn
  · rw [if_neg hid, if_neg (fun h => hid h.1)]

theorem needs_snapshot (ids : List String) (lessons : List (String × LessonDoc))
    (docs : List (ScreenRef × ScreenDoc)) (lessonId : String) (ref : ScreenRef) :
    needs (screensOf { lessons := lessons, screens := docs.map (backfill ids docs) } lessonId) ref
        = true ↔
      ref.1 = lessonId ∧ lessonId ∉ ids ∧ needs docs ref = true := by
  rw [needs_iff, needs_iff]
  unfold screensOf
  constructor
  · rintro ⟨x, hx, hr, w, hw⟩
    rw [List.mem_filter, List.mem_map] at hx
    obtain ⟨⟨c, hc, hcx⟩, hl⟩ := hx
    subst hcx
    rw [backfill_fst] at hr hl
    simp only [decide_eq_true_eq] at hl
    rw [stagedFor_backfill ids docs c hc] at hw
    by_cases hid : c.1.1 ∈ ids
    · rw [if_pos hid] at hw; exact absurd hw (by simp)
    · rw [if_neg hid] at hw
      refine ⟨by rw [← hr]; exact hl, by rw [← hl]; exact hid, c, hc, hr, w, hw⟩
  · rintro ⟨hl, hid, c, hc, hr, w, hw⟩
    have hcl : c.1.1 = lessonId := by rw [hr]; exact hl
    have hcid : c.1.1 ∉ ids := by rw [hcl]; exact hid
    refine ⟨backfill ids docs c, ?_, by rw [backfill_fst]; exact hr, w, ?_⟩
    · rw [List.mem_filter, List.mem_map]
      refine ⟨⟨c, hc, rfl⟩, ?_⟩
      rw [backfill_fst]; simp [hcl]
    · rw [stagedFor_backfill ids docs c hc, if_neg hcid]; exact hw

theorem backfill_step (ids : List String) (lessons : List (String × LessonDoc))
    (docs : List (ScreenRef × ScreenDoc)) (lessonId : String) (d : ScreenRef × ScreenDoc) :
    (if needs (screensOf { lessons := lessons, screens := docs.map (backfill ids docs) } lessonId)
          (backfill ids docs d).1 = true
      then fill (backfill ids docs d) else backfill ids docs d) =
      backfill (ids ++ [lessonId]) docs d := by
  rw [backfill_fst]
  by_cases h : d.1.1 = lessonId ∧ lessonId ∉ ids ∧ needs docs d.1 = true
  · rw [if_pos ((needs_snapshot ids lessons docs lessonId d.1).mpr h)]
    have hid : d.1.1 ∉ ids := by rw [h.1]; exact h.2.1
    have h1 : backfill ids docs d = d := by
      unfold backfill; rw [if_neg (fun e => hid e.1)]
    have h2 : backfill (ids ++ [lessonId]) docs d = fill d := by
      unfold backfill; rw [if_pos ⟨by simp [h.1], h.2.2⟩]
    rw [h1, h2]
  · rw [if_neg (fun e => h ((needs_snapshot ids lessons docs lessonId d.1).mp e))]
    unfold backfill
    by_cases hid : d.1.1 ∈ ids
    · by_cases hn : needs docs d.1 = true
      · rw [if_pos ⟨hid, hn⟩, if_pos ⟨by simp [hid], hn⟩]
      · rw [if_neg (fun e => hn e.2), if_neg (fun e => hn e.2)]
    · rw [if_neg (fun e => hid e.1)]
      by_cases hl : d.1.1 = lessonId
      · have hn : ¬ needs docs d.1 = true := fun hn => h ⟨hl, by rw [← hl]; exact hid, hn⟩
        rw [if_neg (fun e => hn e.2)]
      · rw [if_neg]
        rintro ⟨hm, _⟩
        rw [List.mem_append, List.mem_singleton] at hm
        exact hm.elim hid hl

theorem backfill_nil (docs : List (ScreenRef × ScreenDoc)) (d : ScreenRef × ScreenDoc) :
    backfill [] docs d = d := by
  unfold backfill; simp

/-- The store after the loop over the lessons: the lessons are untouched and every
screen is either untouched or has `order` set from its identifier. -/
theorem foldl_lessonStep_store (ls : List (String × LessonDoc)) (st0 : Outcome) :
    (ls.foldl lessonStep st0).store =
      { lessons := st0.store.lessons
        screens := st0.store.screens.map (backfill (ls.map Prod.fst) st0.store.screens) } := by
  induction ls using List.reverseRecOn with
  | nil =>
    simp only [List.foldl_nil, List.map_nil]
    have : st0.store.screens.map (backfill [] st0.store.screens) = st0.store.screens := by
      conv_rhs => rw [← List.map_id st0.store.screens]
      apply List.map_congr_left
      intro d _; rw [backfill_nil]; rfl
    rw [this]
  | append_singleton ls l ih =>
    rw [List.foldl_append, List.foldl_cons, List.foldl_nil, lessonStep_store, ih]
    simp only [List.map_map, List.map_append, List.map_cons, List.map_nil, Store.mk.injEq,
      true_and]
    apply List.map_congr_left
    intro d _
    simp only [Function.comp]
    exact backfill_step (ls.map Prod.fst) st0.store.lessons st0.store.screens l.1 d

theorem foldl_lessonStep_exit (ls : List (String × LessonDoc)) (st0 : Outcome) :
    (ls.foldl lessonStep st0).exit = st0.exit := by
  induction ls generalizing st0 with
  | nil => rfl
  | cons l ls ih => rw [List.foldl_cons, ih, lessonStep_exit]

theorem mem_snapshot_staged (ids : List String) (lessons : List (String × LessonDoc))
    (docs : List (ScreenRef × ScreenDoc)) (lessonId : String) (w : Write) :
    w ∈ (screensOf { lessons := lessons, screens := docs.map (backfill ids docs) }
          lessonId).filterMap stagedFor ↔
      ∃ c ∈ docs, c.1.1 = lessonId ∧ lessonId ∉ ids ∧ stagedFor c = some w := by
  rw [List.mem_filterMap]
  unfold screensOf
  constructor
  · rintro ⟨x, hx, hw⟩
    rw [List.mem_filter, List.mem_map] at hx
    obtain ⟨⟨c, hc, hcx⟩, hl⟩ := hx
    subst hcx
    rw [backfill_fst] at hl
    simp only [decide_eq_true_eq] at hl
    rw [stagedFor_backfill ids docs c hc] at hw
    by_cases hid : c.1.1 ∈ ids
    · rw [if_pos hid] at hw; exact absurd hw (by simp)
    · rw [if_neg hid] at hw
      exact ⟨c, hc, hl, by rw [← hl]; exact hid, hw⟩
  · rintro ⟨c, hc, hl, hid, hw⟩
    have hcid : c.1.1 ∉ ids := by rw [hl]; exact hid
    refine ⟨backfill ids docs c, ?_, ?_⟩
    · rw [List.mem_filter, List.mem_map]
      refine ⟨⟨c, hc, rfl⟩, ?_⟩
      rw [backfill_fst]; simp [hl]
    · rw [stagedFor_backfill ids docs c hc, if_neg hcid]; exact hw

/-- The writes staged by the loop over the lessons. -/
theorem foldl_lessonStep_staged (ls : List (String × LessonDoc)) (st0 : Outcome) (w : Write) :
    w ∈ (ls.foldl lessonStep st0).staged ↔
      w ∈ st0.staged ∨
        ∃ c ∈ st0.store.screens, c.1.1 ∈ ls.map Prod.fst ∧ stagedFor c = some w := by
  induction ls using List.reverseRecOn with
  | nil => simp
  | append_singleton ls l ih =>
    rw [List.foldl_append, List.foldl_cons, List.foldl_nil, lessonStep_staged, List.mem_append,
      ih, foldl_lessonStep_store, mem_snapshot_staged]
    constructor
    · rintro ((h | ⟨c, hc, hid, hw⟩) | ⟨c, hc, hl, _, hw⟩)
      · exact Or.inl h
      · exact Or.inr ⟨c, hc, by simp [hid], hw⟩
      · exact Or.inr ⟨c, hc, by simp [hl], hw⟩
    · rintro (h | ⟨c, hc, hid, hw⟩)
      · exact Or.inl (Or.inl h)
      · by_cases hin : c.1.1 ∈ ls.map Prod.fst
        · exact Or.inl (Or.inr ⟨c, hc, hin, hw⟩)
        · have hl : c.1.1 = l.1 := by
            simp only [List.map_append, List.map_cons, List.map_nil, List.mem_append,
              List.mem_singleton] at hid
            exact hid.elim (fun h => absurd h hin) id
          exact Or.inr ⟨c, hc, hl, by rw [← hl]; exact hin, hw⟩

theorem foldl_lessonStep_trace_mono (ls : List (String × LessonDoc)) (st0 : Outcome) (op : Op)
    (h : op ∈ st0.trace) : op ∈ (ls.foldl lessonStep st0).trace := by
  induction ls generalizing st0 with
  | nil => exact h
  | cons l ls ih =>
    rw [List.foldl_cons]
    apply ih
    rw [lessonStep_trace]
    exact List.mem_append_left _ h

theorem foldl_lessonStep_log_mono (ls : List (String × LessonDoc)) (st0 : Outcome) (x : LogLine)
    (h : x ∈ st0.log) : x ∈ (ls.foldl lessonStep st0).log := by
  induction ls generalizing st0 with
  | nil => exact h
  | cons l ls ih =>
    rw [List.foldl_cons]
    apply ih
    obtain ⟨tail, ht⟩ := lessonStep_log st0 l
    rw [ht]
    exact List.mem_append_left _ h

/-- Every batch that the loop commits is non-empty and made of staged writes. -/
theorem foldl_lessonStep_commit (ls : List (String × LessonDoc)) (st0 : Outcome)
    (batch : List Write) (h : Op.commit batch ∈ (ls.foldl lessonStep st0).trace) :
    Op.commit batch ∈ st0.trace ∨
      (batch ≠ [] ∧
        ∀ w ∈ batch, ∃ c ∈ st0.store.screens, c.1.1 ∈ ls.map Prod.fst ∧ stagedFor c = some w) := by
  induction ls using List.reverseRecOn with
  | nil => exact Or.inl h
  | append_singleton ls l ih =>
    rw [List.foldl_append, List.foldl_cons, List.foldl_nil, lessonStep_trace,
      foldl_lessonStep_store, List.mem_append, List.mem_cons] at h
    rcases h with h | h | h
    · rcases ih h with h1 | ⟨hne, hall⟩
      · exact Or.inl h1
      · refine Or.inr ⟨hne, fun w hw => ?_⟩
        obtain ⟨c, hc, hid, hs⟩ := hall w hw
        exact ⟨c, hc, by simp [hid], hs⟩
    · exact absurd h (by simp)
    · split at h
      · exact absurd h (List.not_mem_nil _)
      · rename_i hne
        rw [List.mem_singleton] at h
        simp only [Op.commit.injEq] at h
        subst h
        refine Or.inr ⟨hne, fun w hw => ?_⟩
        obtain ⟨c, hc, hl, _, hs⟩ := (mem_snapshot_staged _ _ _ _ w).mp hw
        exact ⟨c, hc, by simp [hl], hs⟩

/-- Every write that the loop stages is in a batch that the loop commits. -/
theorem foldl_lessonStep_committed (ls : List (String × LessonDoc)) (st0 : Outcome)
    (c : ScreenRef × ScreenDoc) (w : Write) (hc : c ∈ st0.store.screens)
    (hid : c.1.1 ∈ ls.map Prod.fst) (hs : stagedFor c = some w) :
    ∃ batch, Op.commit batch ∈ (ls.foldl lessonStep st0).trace ∧ w ∈ batch := by
  induction ls using List.reverseRecOn with
  | nil => simp at hid
  | append_singleton ls l ih =>
    rw [List.foldl_append, List.foldl_cons, List.foldl_nil, lessonStep_trace,
      foldl_lessonStep_store]
    by_cases hin : c.1.1 ∈ ls.map Prod.fst
    · obtain ⟨batch, hb, hw⟩ := ih hin
      exact ⟨batch, List.mem_append_left _ hb, hw⟩
    · have hl : c.1.1 = l.1 := by
        simp only [List.map_append, List.map_cons, List.map_nil, List.mem_append,
          List.mem_singleton] at hid
        exact hid.elim (fun h => absurd h hin) id
      have hw := (mem_snapshot_staged (ls.map Prod.fst) st0.store.lessons st0.store.screens
        l.1 w).mpr ⟨c, hc, hl, by rw [← hl]; exact hin, hs⟩
      have hne := List.ne_nil_of_mem hw
      refine ⟨_, ?_, hw⟩
      rw [if_neg hne]
      simp

/-- The loop prints the line of every screen of every lesson it visits. -/
theorem foldl_lessonStep_line (ls : List (String × LessonDoc)) (st0 : Outcome)
    (c : ScreenRef × ScreenDoc) (hc : c ∈ st0.store.screens)
    (hid : c.1.1 ∈ ls.map Prod.fst) : lineFor c ∈ (ls.foldl lessonStep st0).log := by
  induction ls using List.reverseRecOn with
  | nil => simp at hid
  | append_singleton ls l ih =>
    rw [List.foldl_append, List.foldl_cons, List.foldl_nil]
    obtain ⟨tail, ht⟩ := lessonStep_log (ls.foldl lessonStep st0) l
    rw [ht]
    by_cases hin : c.1.1 ∈ ls.map Prod.fst
    · exact List.mem_append_left _ (ih hin)
    · have hl : c.1.1 = l.1 := by
        simp only [List.map_append, List.map_cons, List.map_nil, List.mem_append,
          List.mem_singleton] at hid
        exact hid.elim (fun h => absurd h hin) id
      apply List.mem_append_right
      apply List.mem_cons_of_mem
      apply List.mem_append_left
      rw [List.mem_map]
      refine ⟨c, ?_, rfl⟩
      rw [foldl_lessonStep_store]
      unfold screensOf
      rw [List.mem_filter, List.mem_map]
      refine ⟨⟨c, hc, ?_⟩, by simp [hl]⟩
      unfold backfill
      rw [if_neg (fun e => hin e.1)]

/-! ## The order parsed from an identifier -/

/-- The pattern `/(\d+)$/` captures the maximal run of digits at the end of the identifier. -/
theorem orderMatch_of_split (screenId : String) (pre run : List Char)
    (hid : screenId.toList = pre ++ run) (hrun : run ≠ [])
    (hdig : ∀ c ∈ run, c.isDigit = true)
    (hmax : ∀ c, pre.getLast? = some c → c.isDigit = false) :
    orderMatch screenId = some run := by
  have htd : trailingDigits screenId = run := by
    unfold trailingDigits
    rw [hid, List.reverse_append,
      List.takeWhile_append_of_pos (by
        intro a ha; exact hdig a (List.mem_reverse.mp ha))]
    have hpre : pre.reverse.takeWhile Char.isDigit = [] := by
      cases hp : pre.reverse with
      | nil => rfl
      | cons x xs =>
        have hx : pre.getLast? = some x := by
          rw [List.getLast?_eq_head?_reverse, hp]; rfl
        rw [List.takeWhile_cons_of_neg]
        rw [hmax x hx]; simp
    rw [hpre, List.append_nil, List.reverse_reverse]
  unfold orderMatch
  rw [htd]
  cases run with
  | nil => exact absurd rfl hrun
  | cons c cs => rfl

/-- The pattern `/(\d+)$/` matches no identifier that does not end in a digit. -/
theorem orderMatch_eq_none (screenId : String)
    (hend : ∀ c, screenId.toList.getLast? = some c → c.isDigit = false) :
    orderMatch screenId = none := by
  have htd : trailingDigits screenId = [] := by
    unfold trailingDigits
    cases hp : screenId.toList.reverse with
    | nil => rfl
    | cons x xs =>
      have hx : screenId.toList.getLast? = some x := by
        rw [List.getLast?_eq_head?_reverse, hp]; rfl
      rw [List.takeWhile_cons_of_neg]
      · rfl
      · rw [hend x hx]; simp
  unfold orderMatch
  rw [htd]

theorem foldl_digits (run : List Char) (acc : Nat) :
    run.foldl (fun acc c => 10 * acc + (c.toNat - 48)) acc =
      Nat.ofDigits 10 ((run.map (fun c => c.toNat - 48)).reverse) + 10 ^ run.length * acc := by
  induction run generalizing acc with
  | nil => simp
  | cons c cs ih =>
    rw [List.foldl_cons, ih, List.map_cons, List.reverse_cons, Nat.ofDigits_append,
      Nat.ofDigits_singleton, List.length_reverse, List.length_map, List.length_cons]
    ring

/-- The value of a string of digits is the number it denotes in base 10. -/
theorem digitsValue_eq_ofDigits (run : List Char) :
    digitsValue run = Nat.ofDigits 10 ((run.map (fun c => c.toNat - 48)).reverse) := by
  unfold digitsValue
  rw [foldl_digits]; simp

theorem excessBits_of_lt (n : Nat) (h : n < 2 ^ 53) : excessBits n n 0 = 0 := by
  cases n with
  | zero => rfl
  | succ m =>
    unfold excessBits
    rw [if_pos (by simpa using h)]

/-- Integers below `2 ^ 53` are JavaScript numbers. -/
theorem toNumber_of_lt (n : Nat) (h : n < 2 ^ 53) : toNumber n = Scalar.number n := by
  unfold toNumber
  rw [excessBits_of_lt n h]
  have h2 : n < 2 ^ 1024 :=
    lt_trans h (Nat.pow_lt_pow_right Nat.one_lt_two (by decide))
  have hc : ¬ (1 < 2 * 0 ∨ 2 * 0 = 1 ∧ n % 2 = 1) := by omega
  simp only [pow_zero, Nat.mod_one, Nat.div_one, Nat.mul_one]
  rw [if_neg hc, if_pos h2]
  simp

/-- Integers up to `2 ^ 53` are JavaScript numbers. -/
theorem toNumber_of_le (n : Nat) (h : n ≤ 2 ^ 53) : toNumber n = Scalar.number n := by
  rcases Nat.lt_or_eq_of_le h with h1 | h1
  · exact toNumber_of_lt n h1
  · subst h1; decide!

/-! ## The backfill as a whole -/

theorem fixScreenOrder_store (s : Store) :
    (fixScreenOrder s).store =
      { lessons := s.lessons
        screens := s.screens.map (backfill (s.lessons.map Prod.fst) s.screens) } := by
  unfold fixScreenOrder
  simp only
  rw [foldl_lessonStep_store]

theorem fixScreenOrder_exit (s : Store) : (fixScreenOrder s).exit = 0 := by
  unfold fixScreenOrder
  simp only
  rw [foldl_lessonStep_exit]

theorem fixScreenOrder_staged (s : Store) (w : Write) :
    w ∈ (fixScreenOrder s).staged ↔
      ∃ c ∈ s.screens, c.1.1 ∈ s.lessons.map Prod.fst ∧ stagedFor c = some w := by
  unfold fixScreenOrder
  simp only
  rw [foldl_lessonStep_staged]
  simp

theorem fixScreenOrder_commit (s : Store) (batch : List Write)
    (h : Op.commit batch ∈ (fixScreenOrder s).trace) :
    batch ≠ [] ∧
      ∀ w ∈ batch, ∃ c ∈ s.screens, c.1.1 ∈ s.lessons.map Prod.fst ∧ stagedFor c = some w := by
  unfold fixScreenOrder at h
  simp only at h
  rcases foldl_lessonStep_commit _ _ batch h with h1 | h1
  · simp at h1
  · exact h1

theorem fixScreenOrder_committed (s : Store) (c : ScreenRef × ScreenDoc) (w : Write)
    (hc : c ∈ s.screens) (hid : c.1.1 ∈ s.lessons.map Prod.fst) (hs : stagedFor c = some w) :
    ∃ batch, Op.commit batch ∈ (fixScreenOrder s).trace ∧ w ∈ batch := by
  unfold fixScreenOrder
  simp only
  exact foldl_lessonStep_committed s.lessons _ c w hc hid hs

theorem fixScreenOrder_line (s : Store) (c : ScreenRef × ScreenDoc)
    (hc : c ∈ s.screens) (hid : c.1.1 ∈ s.lessons.map Prod.fst) :
    lineFor c ∈ (fixScreenOrder s).log := by
  unfold fixScreenOrder
  simp only
  exact List.mem_append_left _ (foldl_lessonStep_line s.lessons _ c hc hid)

theorem parseInt_eq_base10Value (run : List Char) (h : base10Value run ≤ 2 ^ 53) :
    parseInt run = Scalar.number (base10Value run) := by
  unfold parseInt
  rw [digitsValue_eq_ofDigits]
  exact toNumber_of_le _ h

theorem mem_lessonIds {s : Store} {lessonId : String} {lessonData : LessonDoc}
    (h : (lessonId, lessonData) ∈ s.lessons) : lessonId ∈ s.lessons.map Prod.fst :=
  List.mem_map.mpr ⟨(lessonId, lessonData), h, rfl⟩

/-- C1, as amended: for every screen document whose identifier ends in a maximal run
of digits denoting an integer of at most `2 ^ 53` and whose data has no `order`
field, the iteration of the screens loop stages an update that sets `order` to that
integer and counts it, every update that the run stages for the screen carries that
value, and, the lesson of the screen being a document of the store, the run commits
the update in a batch and leaves the document with its former fields and `order` set
to that integer. -/
theorem fixScreenOrder_sets_order (s : Store) (lessonId screenId : String)
    (screenData : ScreenDoc) (pre run : List Char)
    (hscreen : ((lessonId, screenId), screenData) ∈ s.screens)
    (hid : screenId.toList = pre ++ run) (hrun : run ≠ [])
    (hdig : ∀ c ∈ run, c.isDigit = true)
    (hmax : ∀ c, pre.getLast? = some c → c.isDigit = false)
    (horder : screenData.lookup "order" = none)
    (hval : base10Value run ≤ 2 ^ 53) :
    (∀ st : ScreenLoop, screenStep st ((lessonId, screenId), screenData) =
        { batch := st.batch ++
            [Write.update (lessonId, screenId) (Scalar.number (base10Value run))]
          updateCount := st.updateCount + 1
          log := st.log ++
            [LogLine.addingOrder screenId (Scalar.number (base10Value run))] }) ∧
    (∀ order, Write.update (lessonId, screenId) order ∈ (fixScreenOrder s).staged →
        order = Scalar.number (base10Value run)) ∧
    (∀ lessonData, (lessonId, lessonData) ∈ s.lessons →
      (∃ batch, Op.commit batch ∈ (fixScreenOrder s).trace ∧
          Write.update (lessonId, screenId) (Scalar.number (base10Value run)) ∈ batch) ∧
      ((lessonId, screenId), setField "order" (Scalar.number (base10Value run)) screenData) ∈
          (fixScreenOrder s).store.screens ∧
      (∀ data, ((lessonId, screenId), data) ∈ (fixScreenOrder s).store.screens →
          data.lookup "order" = some (Scalar.number (base10Value run)))) := by
  have hm : orderMatch screenId = some run := orderMatch_of_split screenId pre run hid hrun hdig hmax
  have hp := parseInt_eq_base10Value run hval
  have hst : stagedFor ((lessonId, screenId), screenData) =
      some (Write.update (lessonId, screenId) (Scalar.number (base10Value run))) := by
    simp only [stagedFor, hm, horder, hp]
  have hneeds : needs s.screens (lessonId, screenId) = true :=
    (needs_iff _ _).mpr ⟨_, hscreen, rfl, _, hst⟩
  refine ⟨?_, ?_, ?_⟩
  · intro st
    rw [screenStep_eq, hst]
    simp [lineFor, hm, horder, hp]
  · intro order ho
    obtain ⟨c, _, _, hs⟩ := (fixScreenOrder_staged s _).mp ho
    obtain ⟨run1, hm1, _, hw⟩ := stagedFor_eq_update hs
    simp only [Write.update.injEq] at hw
    rw [← hw.1] at hm1
    simp only at hm1
    rw [hm] at hm1
    simp only [Option.some.injEq] at hm1
    rw [hw.2, ← hm1, hp]
  · intro lessonData hlesson
    have hids := mem_lessonIds hlesson
    have hfill : ∀ c : ScreenRef × ScreenDoc, c.1 = (lessonId, screenId) →
        backfill (s.lessons.map Prod.fst) s.screens c =
          (c.1, setField "order" (Scalar.number (base10Value run)) c.2) := by
      intro c hc
      unfold backfill
      rw [if_pos ⟨by rw [hc]; exact hids, by rw [hc]; exact hneeds⟩]
      exact fill_of_stagedFor hst c hc
    refine ⟨fixScreenOrder_committed s _ _ hscreen hids hst, ?_, ?_⟩
    · rw [fixScreenOrder_store]
      simp only
      rw [List.mem_map]
      exact ⟨_, hscreen, hfill _ rfl⟩
    · intro data hd
      rw [fixScreenOrder_store] at hd
      simp only at hd
      rw [List.mem_map] at hd
      obtain ⟨c, _, hcd⟩ := hd
      have hc1 : c.1 = (lessonId, screenId) := by
        have := congrArg Prod.fst hcd
        rw [backfill_fst] at this
        exact this
      rw [hfill c hc1] at hcd
      have := congrArg Prod.snd hcd
      simp only at this
      rw [← this, lookup_setField_self]

/-- C1, witness: the screen `screen_003` of end-to-end scenario 2, whose lesson `L1`
is a document of the store. -/
theorem fixScreenOrder_sets_order_witness :
    base10Value ['0', '0', '3'] = 3 ∧
    (∀ st : ScreenLoop, screenStep st (("L1", "screen_003"), [("text", Scalar.string "a")]) =
        { batch := st.batch ++
            [Write.update ("L1", "screen_003") (Scalar.number (base10Value ['0', '0', '3']))]
          updateCount := st.updateCount + 1
          log := st.log ++
            [LogLine.addingOrder "screen_003" (Scalar.number (base10Value ['0', '0', '3']))] }) ∧
    (∃ batch, Op.commit batch ∈ (fixScreenOrder scenario2Store).trace ∧
        Write.update ("L1", "screen_003") (Scalar.number (base10Value ['0', '0', '3'])) ∈ batch) ∧
    (("L1", "screen_003"),
        setField "order" (Scalar.number (base10Value ['0', '0', '3']))
          [("text", Scalar.string "a")]) ∈ (fixScreenOrder scenario2Store).store.screens :=
  ⟨by simp [base10Value, Nat.ofDigits],
    (fixScreenOrder_sets_order scenario2Store "L1" "screen_003" [("text", Scalar.string "a")]
      "screen_".toList ['0', '0', '3'] (by decide) (by decide) (by decide) (by decide)
      (by intro c h; simp at h; subst h; decide) (by decide)
      (by simp [base10Value, Nat.ofDigits])).1,
    ((fixScreenOrder_sets_order scenario2Store "L1" "screen_003" [("text", Scalar.string "a")]
      "screen_".toList ['0', '0', '3'] (by decide) (by decide) (by decide) (by decide)
      (by intro c h; simp at h; subst h; decide) (by decide)
      (by simp [base10Value, Nat.ofDigits])).2.2
        [("title", Value.scalar (Scalar.string "Intro"))] (by decide)).1,
    ((fixScreenOrder_sets_order scenario2Store "L1" "screen_003" [("text", Scalar.string "a")]
      "screen_".toList ['0', '0', '3'] (by decide) (by decide) (by decide) (by decide)
      (by intro c h; simp at h; subst h; decide) (by decide)
      (by simp [base10Value, Nat.ofDigits])).2.2
        [("title", Value.scalar (Scalar.string "Intro"))] (by decide)).2.1⟩

/-- C1, counterexample: the identifier `s9007199254740993` ends in the digits of
`2 ^ 53 + 1`, the screen has no `order` field and its lesson is a document of the
store, and the backfill stages, commits and stores the order `2 ^ 53`, which is not
the base-10 value of the digits. -/
theorem fixScreenOrder_order_rounded :
    longIdStore.lessons = [("L1", [("title", Value.scalar (Scalar.string "Intro"))])] ∧
    longIdStore.screens = [(("L1", "s9007199254740993"), [("text", Scalar.string "a")])] ∧
    orderMatch "s9007199254740993" = some "9007199254740993".toList ∧
    base10Value "9007199254740993".toList = 9007199254740993 ∧
    (fixScreenOrder longIdStore).exit = 0 ∧
    (fixScreenOrder longIdStore).trace =
      [Op.getLessons, Op.getScreens "L1",
       Op.commit [Write.update ("L1", "s9007199254740993") (Scalar.number 9007199254740992)]] ∧
    (fixScreenOrder longIdStore).staged =
      [Write.update ("L1", "s9007199254740993") (Scalar.number 9007199254740992)] ∧
    (fixScreenOrder longIdStore).store.screens =
      [(("L1", "s9007199254740993"),
        [("text", Scalar.string "a"), ("order", Scalar.number 9007199254740992)])] ∧
    Scalar.number 9007199254740992 ≠
      Scalar.number (base10Value "9007199254740993".toList) := by
  have hv : base10Value "9007199254740993".toList = 9007199254740993 := by
    simp [base10Value, Nat.ofDigits]
  refine ⟨rfl, rfl, by decide, hv, by decide!, by decide!, by decide!, by decide!, ?_⟩
  rw [hv]
  decide

/-- The examples of the spec: the runs `007`, `03` and `003` denote 7, 3 and 3. -/
theorem base10Value_examples :
    base10Value "007".toList = 7 ∧ base10Value "03".toList = 3 ∧ base10Value "003".toList = 3 := by
  simp [base10Value, Nat.ofDigits]

/-- The examples of the spec: the maximal trailing runs of digits of some identifiers. -/
theorem orderMatch_examples :
    orderMatch "screen_007" = some "007".toList ∧ orderMatch "s12ok03" = some "03".toList ∧
    orderMatch "screen_003" = some "003".toList ∧ orderMatch "screen_01b" = none ∧
    orderMatch "intro" = none ∧ orderMatch "" = none := by
  decide

/-- The examples of the spec: the order parsed from `screen_007`, `s12ok03` and
`screen_003`. -/
theorem parseInt_examples :
    (orderMatch "screen_007").map parseInt = some (Scalar.number 7) ∧
    (orderMatch "s12ok03").map parseInt = some (Scalar.number 3) ∧
    (orderMatch "screen_003").map parseInt = some (Scalar.number 3) := by
  decide!

theorem eq_of_mem_of_fst_eq {screens : List (ScreenRef × ScreenDoc)}
    (hpaths : (screens.map Prod.fst).Nodup) {c d : ScreenRef × ScreenDoc}
    (hc : c ∈ screens) (hd : d ∈ screens) (h : c.1 = d.1) : c = d :=
  List.inj_on_of_nodup_map hpaths hc hd h

theorem stagedFor_ref {c : ScreenRef × ScreenDoc} {w : Write} (h : stagedFor c = some w) :
    w.ref = c.1 := by
  obtain ⟨run, _, _, hw⟩ := stagedFor_eq_update h
  rw [hw]; rfl

theorem stagedFor_of_order {c : ScreenRef × ScreenDoc} {value : Scalar}
    (h : c.2.lookup "order" = some value) : stagedFor c = none := by
  unfold stagedFor
  cases orderMatch c.1.2 with
  | none => rfl
  | some run => simp only [h]

/-- C2: for every screen document that has an `order` field, whatever its value, the
iteration of the screens loop stages no write and leaves the update counter as it
was, the run stages and commits no write for the screen, and the document, hence its
`order`, is after the run what it was before (the document paths of the store being
distinct). -/
theorem fixScreenOrder_keeps_order (s : Store) (lessonId screenId : String)
    (screenData : ScreenDoc) (value : Scalar)
    (hpaths : (s.screens.map Prod.fst).Nodup)
    (hscreen : ((lessonId, screenId), screenData) ∈ s.screens)
    (horder : screenData.lookup "order" = some value) :
    (∀ st : ScreenLoop,
        (screenStep st ((lessonId, screenId), screenData)).batch = st.batch ∧
        (screenStep st ((lessonId, screenId), screenData)).updateCount = st.updateCount) ∧
    (∀ w ∈ (fixScreenOrder s).staged, w.ref ≠ (lessonId, screenId)) ∧
    (∀ batch, Op.commit batch ∈ (fixScreenOrder s).trace →
        ∀ w ∈ batch, w.ref ≠ (lessonId, screenId)) ∧
    ((lessonId, screenId), screenData) ∈ (fixScreenOrder s).store.screens ∧
    (∀ data, ((lessonId, screenId), data) ∈ (fixScreenOrder s).store.screens →
        data = screenData ∧ data.lookup "order" = some value) := by
  have hnone : stagedFor ((lessonId, screenId), screenData) = none := stagedFor_of_order horder
  have hno : ∀ (c : ScreenRef × ScreenDoc) (w : Write), c ∈ s.screens →
      stagedFor c = some w → w.ref ≠ (lessonId, screenId) := by
    intro c w hc hs href
    rw [stagedFor_ref hs] at href
    have := eq_of_mem_of_fst_eq hpaths hc hscreen href
    rw [this, hnone] at hs
    exact absurd hs (by simp)
  have hneeds : ¬ needs s.screens (lessonId, screenId) = true := by
    intro hn
    obtain ⟨c, hc, href, w, hs⟩ := (needs_iff _ _).mp hn
    exact hno c w hc hs (by rw [stagedFor_ref hs]; exact href)
  have hback : backfill (s.lessons.map Prod.fst) s.screens ((lessonId, screenId), screenData) =
      ((lessonId, screenId), screenData) := by
    unfold backfill
    rw [if_neg (fun e => hneeds e.2)]
  refine ⟨?_, ?_, ?_, ?_, ?_⟩
  · intro st
    rw [screenStep_eq, hnone]
    simp
  · intro w hw
    obtain ⟨c, hc, _, hs⟩ := (fixScreenOrder_staged s w).mp hw
    exact hno c w hc hs
  · intro batch hb w hw
    obtain ⟨c, hc, _, hs⟩ := (fixScreenOrder_commit s batch hb).2 w hw
    exact hno c w hc hs
  · rw [fixScreenOrder_store]
    simp only
    rw [List.mem_map]
    exact ⟨_, hscreen, hback⟩
  · intro data hd
    rw [fixScreenOrder_store] at hd
    simp only at hd
    rw [List.mem_map] at hd
    obtain ⟨c, hc, hcd⟩ := hd
    have hc1 : c.1 = (lessonId, screenId) := by
      have := congrArg Prod.fst hcd
      rw [backfill_fst] at this
      exact this
    have hceq := eq_of_mem_of_fst_eq hpaths hc hscreen hc1
    rw [hceq, hback] at hcd
    have := congrArg Prod.snd hcd
    simp only at this
    rw [← this]
    exact ⟨rfl, horder⟩

/-- C2, witness: the screen `screen_005` of the scenario store, whose `order` is 0. -/
theorem fixScreenOrder_keeps_order_witness :
    (scenario2Store.screens.map Prod.fst).Nodup ∧
    (∀ w ∈ (fixScreenOrder scenario2Store).staged, w.ref ≠ ("L1", "screen_005")) ∧
    (∀ data, (("L1", "screen_005"), data) ∈ (fixScreenOrder scenario2Store).store.screens →
        data = [("order", Scalar.number 0)] ∧ data.lookup "order" = some (Scalar.number 0)) :=
  ⟨by decide,
    (fixScreenOrder_keeps_order scenario2Store "L1" "screen_005" [("order", Scalar.number 0)]
      (Scalar.number 0) (by decide) (by decide) (by decide)).2.1,
    (fixScreenOrder_keeps_order scenario2Store "L1" "screen_005" [("order", Scalar.number 0)]
      (Scalar.number 0) (by decide) (by decide) (by decide)).2.2.2.2⟩

theorem filter_setField {β : Type} (key : String) (v : β) (doc : List (String × β)) :
    (setField key v doc).filter (fun f => decide (f.1 ≠ key)) =
      doc.filter (fun f => decide (f.1 ≠ key)) := by
  have hmap : (doc.map (fun f => if f.1 = key then (f.1, v) else f)).filter
      (fun f => decide (f.1 ≠ key)) = doc.filter (fun f => decide (f.1 ≠ key)) := by
    induction doc with
    | nil => rfl
    | cons f fs ih =>
      by_cases hf : f.1 = key
      · simpa [List.filter_cons, hf] using ih
      · simpa [List.filter_cons, hf] using ih
  unfold setField
  split
  · exact hmap
  · simp [List.filter_append]

theorem fill_frame (d : ScreenRef × ScreenDoc) :
    (fill d).1 = d.1 ∧
      (fill d).2.filter (fun f => decide (f.1 ≠ "order")) =
        d.2.filter (fun f => decide (f.1 ≠ "order")) ∧
      ∀ k, k ≠ "order" → (fill d).2.lookup k = d.2.lookup k := by
  unfold fill
  cases orderMatch d.1.2 with
  | none => exact ⟨rfl, rfl, fun _ _ => rfl⟩
  | some run =>
    exact ⟨rfl, filter_setField "order" _ d.2, fun k hk => lookup_setField_ne "order" k _ d.2 hk⟩

theorem backfill_frame (ids : List String) (docs : List (ScreenRef × ScreenDoc))
    (d : ScreenRef × ScreenDoc) :
    (backfill ids docs d).1 = d.1 ∧
      (backfill ids docs d).2.filter (fun f => decide (f.1 ≠ "order")) =
        d.2.filter (fun f => decide (f.1 ≠ "order")) ∧
      ∀ k, k ≠ "order" → (backfill ids docs d).2.lookup k = d.2.lookup k := by
  unfold backfill
  split
  · exact fill_frame d
  · exact ⟨rfl, rfl, fun _ _ => rfl⟩

/-- C3: the backfill changes nothing but the `order` field of screen documents: the
lesson documents are the same, the screen documents are at the same paths in the same
number, and every screen document keeps every field other than `order`. -/
theorem fixScreenOrder_frame (s : Store) :
    (fixScreenOrder s).store.lessons = s.lessons ∧
    (fixScreenOrder s).store.screens.map Prod.fst = s.screens.map Prod.fst ∧
    List.Forall₂
      (fun before after =>
        after.1 = before.1 ∧
        after.2.filter (fun f => decide (f.1 ≠ "order")) =
          before.2.filter (fun f => decide (f.1 ≠ "order")) ∧
        ∀ k, k ≠ "order" → after.2.lookup k = before.2.lookup k)
      s.screens (fixScreenOrder s).store.screens := by
  rw [fixScreenOrder_store]
  refine ⟨rfl, ?_, ?_⟩
  · simp only [List.map_map]
    apply List.map_congr_left
    intro d _
    exact backfill_fst _ _ d
  · simp only
    rw [List.forall₂_map_right_iff, List.forall₂_same]
    intro d _
    exact backfill_frame _ _ d

/-- C4: the backfill is idempotent: the first run ends with status 0, and a second
run on the store it leaves stages no write, commits no batch and ends with status 0
on the same store. -/
theorem fixScreenOrder_idempotent (s : Store) :
    (fixScreenOrder s).exit = 0 ∧
    (fixScreenOrder (fixScreenOrder s).store).staged = [] ∧
    (∀ batch, Op.commit batch ∉ (fixScreenOrder (fixScreenOrder s).store).trace) ∧
    (fixScreenOrder (fixScreenOrder s).store).exit = 0 ∧
    (fixScreenOrder (fixScreenOrder s).store).store = (fixScreenOrder s).store := by
  have hdone : ∀ c ∈ (fixScreenOrder s).store.screens,
      c.1.1 ∈ (fixScreenOrder s).store.lessons.map Prod.fst → stagedFor c = none := by
    intro c hc hid
    rw [fixScreenOrder_store] at hc hid
    simp only at hc hid
    rw [List.mem_map] at hc
    obtain ⟨d, hd, hdc⟩ := hc
    subst hdc
    rw [backfill_fst] at hid
    rw [stagedFor_backfill _ _ d hd, if_pos hid]
  have hstaged : ∀ w, w ∉ (fixScreenOrder (fixScreenOrder s).store).staged := by
    intro w hw
    obtain ⟨c, hc, hid, hs⟩ := (fixScreenOrder_staged _ w).mp hw
    rw [hdone c hc hid] at hs
    exact absurd hs (by simp)
  refine ⟨fixScreenOrder_exit s, List.eq_nil_iff_forall_not_mem.mpr hstaged, ?_,
    fixScreenOrder_exit _, ?_⟩
  · intro batch hb
    obtain ⟨hne, hall⟩ := fixScreenOrder_commit _ batch hb
    obtain ⟨w, hw⟩ := List.exists_mem_of_ne_nil batch hne
    obtain ⟨c, hc, hid, hs⟩ := hall w hw
    rw [hdone c hc hid] at hs
    exact absurd hs (by simp)
  · rw [fixScreenOrder_store (fixScreenOrder s).store]
    have hmap : (fixScreenOrder s).store.screens.map
        (backfill ((fixScreenOrder s).store.lessons.map Prod.fst) (fixScreenOrder s).store.screens)
        = (fixScreenOrder s).store.screens := by
      conv_rhs => rw [← List.map_id (fixScreenOrder s).store.screens]
      apply List.map_congr_left
      intro c hc
      unfold backfill
      rw [if_neg]
      · rfl
      · rintro ⟨hid, hn⟩
        obtain ⟨c1, hc1, href, w, hs⟩ := (needs_iff _ _).mp hn
        rw [hdone c1 hc1 (by rw [href]; exact hid)] at hs
        exact absurd hs (by simp)
    rw [hmap]

theorem fill_of_orderMatch_none {c : ScreenRef × ScreenDoc} (h : orderMatch c.1.2 = none) :
    fill c = c := by
  unfold fill
  rw [h]

theorem stagedFor_of_orderMatch_none {c : ScreenRef × ScreenDoc} (h : orderMatch c.1.2 = none) :
    stagedFor c = none := by
  unfold stagedFor
  rw [h]

/-- C5: for every screen document whose identifier does not end in a decimal digit
(the empty identifier included), the iteration of the screens loop stages no write,
leaves the update counter as it was and logs the warning; the run stages and commits
no write for the screen, ends with status 0 and leaves the data of the screen as it
was; and the warning is in the log of the run, the lesson of the screen being a
document of the store. -/
theorem fixScreenOrder_skips_unnumbered (s : Store) (lessonId screenId : String)
    (screenData : ScreenDoc)
    (hscreen : ((lessonId, screenId), screenData) ∈ s.screens)
    (hend : ∀ c, screenId.toList.getLast? = some c → c.isDigit = false) :
    (∀ st : ScreenLoop, screenStep st ((lessonId, screenId), screenData) =
        { batch := st.batch, updateCount := st.updateCount
          log := st.log ++ [LogLine.cannotExtract screenId] }) ∧
    (∀ w ∈ (fixScreenOrder s).staged, w.ref ≠ (lessonId, screenId)) ∧
    (∀ batch, Op.commit batch ∈ (fixScreenOrder s).trace →
        ∀ w ∈ batch, w.ref ≠ (lessonId, screenId)) ∧
    (fixScreenOrder s).exit = 0 ∧
    (∀ data, ((lessonId, screenId), data) ∈ (fixScreenOrder s).store.screens ↔
        ((lessonId, screenId), data) ∈ s.screens) ∧
    (∀ lessonData, (lessonId, lessonData) ∈ s.lessons →
        LogLine.cannotExtract screenId ∈ (fixScreenOrder s).log) := by
  have hm : orderMatch screenId = none := orderMatch_eq_none screenId hend
  have hno : ∀ (c : ScreenRef × ScreenDoc) (w : Write),
      stagedFor c = some w → w.ref ≠ (lessonId, screenId) := by
    intro c w hs href
    rw [stagedFor_ref hs] at href
    have hc : orderMatch c.1.2 = none := by rw [href]; exact hm
    rw [stagedFor_of_orderMatch_none hc] at hs
    exact absurd hs (by simp)
  have hback : ∀ c : ScreenRef × ScreenDoc, c.1 = (lessonId, screenId) →
      backfill (s.lessons.map Prod.fst) s.screens c = c := by
    intro c hc
    unfold backfill
    split
    · exact fill_of_orderMatch_none (by rw [hc]; exact hm)
    · rfl
  refine ⟨?_, ?_, ?_, fixScreenOrder_exit s, ?_, ?_⟩
  · intro st
    rw [screenStep_eq, stagedFor_of_orderMatch_none hm]
    simp [lineFor, hm]
  · intro w hw
    obtain ⟨c, _, _, hs⟩ := (fixScreenOrder_staged s w).mp hw
    exact hno c w hs
  · intro batch hb w hw
    obtain ⟨c, _, _, hs⟩ := (fixScreenOrder_commit s batch hb).2 w hw
    exact hno c w hs
  · intro data
    rw [fixScreenOrder_store]
    simp only
    rw [List.mem_map]
    constructor
    · rintro ⟨c, hc, hcd⟩
      have hc1 : c.1 = (lessonId, screenId) := by
        have := congrArg Prod.fst hcd
        rw [backfill_fst] at this
        exact this
      rw [hback c hc1] at hcd
      rw [← hcd]; exact hc
    · intro hd
      exact ⟨_, hd, hback _ rfl⟩
  · intro lessonData hlesson
    have := fixScreenOrder_line s _ hscreen (mem_lessonIds hlesson)
    simpa [lineFor, hm] using this

/-- C5, witness: the screen `screen_01b` of the scenario store, whose lesson `L1` is a
document of the store. -/
theorem fixScreenOrder_skips_unnumbered_witness :
    (∀ st : ScreenLoop, screenStep st (("L1", "screen_01b"), [("text", Scalar.string "b")]) =
        { batch := st.batch, updateCount := st.updateCount
          log := st.log ++ [LogLine.cannotExtract "screen_01b"] }) ∧
    (∀ w ∈ (fixScreenOrder scenario2Store).staged, w.ref ≠ ("L1", "screen_01b")) ∧
    LogLine.cannotExtract "screen_01b" ∈ (fixScreenOrder scenario2Store).log :=
  ⟨(fixScreenOrder_skips_unnumbered scenario2Store "L1" "screen_01b"
      [("text", Scalar.string "b")] (by decide)
      (by intro c h; simp at h; subst h; decide)).1,
    (fixScreenOrder_skips_unnumbered scenario2Store "L1" "screen_01b"
      [("text", Scalar.string "b")] (by decide)
      (by intro c h; simp at h; subst h; decide)).2.1,
    (fixScreenOrder_skips_unnumbered scenario2Store "L1" "screen_01b"
      [("text", Scalar.string "b")] (by decide)
      (by intro c h; simp at h; subst h; decide)).2.2.2.2.2
        [("title", Value.scalar (Scalar.string "Intro"))] (by decide)⟩

/-- End-to-end scenario 2: the backfill sets `order` to 3 on `screen_003` and leaves
`order` at 99 on `screen_004`. -/
theorem fixScreenOrder_scenario2 :
    (fixScreenOrder scenario2Store).store.screens =
      [(("L1", "screen_003"), [("text", Scalar.string "a"), ("order", Scalar.number 3)]),
       (("L1", "screen_004"), [("order", Scalar.number 99)]),
       (("L1", "screen_005"), [("order", Scalar.number 0)]),
       (("L1", "screen_01b"), [("text", Scalar.string "b")])] := by
  decide!

/-- The backfill visits the screens of the documents of the lessons collection: the
screens under a lesson id without a lesson document are not read. -/
theorem fixScreenOrder_orphan_example :
    (fixScreenOrder orphanStore).store = orphanStore ∧
    (fixScreenOrder orphanStore).trace = [Op.getLessons, Op.getScreens "L1"] ∧
    (fixScreenOrder orphanStore).log =
      [LogLine.fixing, LogLine.processing "L1", LogLine.noScreens, LogLine.fixed] := by
  decide

/-- C10: when the credential file is missing, each of the two scripts ends with exit
status 1 and has sent no operation to the store, staged no write and left the store
as it was, whatever the store, the arguments and the seed file. -/
theorem missing_credential_exit (docPath : String → Option (List String))
    (dateOf : Value → Option Int) (env : Env) (s : Store)
    (hcred : env.credential = Credential.missing) :
    (fixScreenOrderScript env.credential s).exit = 1 ∧
    (fixScreenOrderScript env.credential s).trace = [] ∧
    (fixScreenOrderScript env.credential s).staged = [] ∧
    (fixScreenOrderScript env.credential s).store = s ∧
    (importLessonsScript docPath dateOf env s).exit = 1 ∧
    (importLessonsScript docPath dateOf env s).trace = [] ∧
    (importLessonsScript docPath dateOf env s).staged = [] ∧
    (importLessonsScript docPath dateOf env s).store = s := by
  unfold fixScreenOrderScript importLessonsScript
  rw [hcred]
  exact ⟨rfl, rfl, rfl, rfl, rfl, rfl, rfl, rfl⟩

/-! ## Sequences of full replaces -/

section Sets

variable {κ δ : Type} [DecidableEq κ]

theorem setDoc_of_mem (ref : κ) (data : δ) (docs : List (κ × δ))
    (h : ref ∈ docs.map Prod.fst) : setDoc ref data docs = docs.map (setOne ref data) := by
  unfold setDoc
  rw [if_pos]
  · rfl
  · rw [List.any_eq_true]
    obtain ⟨d, hd, hr⟩ := List.mem_map.mp h
    exact ⟨d, hd, by simp [hr]⟩

theorem setDoc_of_not_mem (ref : κ) (data : δ) (docs : List (κ × δ))
    (h : ref ∉ docs.map Prod.fst) : setDoc ref data docs = docs ++ [(ref, data)] := by
  unfold setDoc
  rw [if_neg]
  intro hany
  rw [List.any_eq_true] at hany
  obtain ⟨d, hd, hr⟩ := hany
  exact h (List.mem_map.mpr ⟨d, hd, by simpa using hr⟩)

theorem setOne_fst (ref : κ) (data : δ) (d : κ × δ) : (setOne ref data d).1 = d.1 := by
  unfold setOne
  split <;> rfl

theorem setOne_of_ne (ref : κ) (data : δ) (d : κ × δ) (h : d.1 ≠ ref) :
    setOne ref data d = d := by
  unfold setOne
  rw [if_neg h]

theorem setOne_of_eq (ref : κ) (data : δ) (d : κ × δ) (h : d.1 = ref) :
    setOne ref data d = (ref, data) := by
  unfold setOne
  rw [if_pos h, h]

theorem setAll_nil (d : κ × δ) : setAll ([] : List (κ × δ)) d = d := rfl

theorem setAll_cons (w : κ × δ) (ws : List (κ × δ)) (d : κ × δ) :
    setAll (w :: ws) d = setAll ws (setOne w.1 w.2 d) := rfl

theorem setAll_fst (ws : List (κ × δ)) (d : κ × δ) : (setAll ws d).1 = d.1 := by
  induction ws generalizing d with
  | nil => rfl
  | cons w ws ih => rw [setAll_cons, ih, setOne_fst]

theorem setAll_setAll (ws : List (κ × δ)) (d : κ × δ) :
    setAll ws (setAll ws d) = setAll ws d := by
  induction ws generalizing d with
  | nil => rfl
  | cons w ws ih =>
    rw [setAll_cons, setAll_cons]
    by_cases h : d.1 = w.1
    · have h1 : setOne w.1 w.2 d = (w.1, w.2) := setOne_of_eq _ _ _ h
      have h2 : (setAll ws (w.1, w.2)).1 = w.1 := setAll_fst ws _
      rw [h1, setOne_of_eq _ _ _ h2]
    · rw [setOne_of_ne _ _ _ h]
      have h2 : (setAll ws d).1 ≠ w.1 := by rw [setAll_fst]; exact h
      rw [setOne_of_ne _ _ _ h2, ih]

theorem map_setOne_fst (ref : κ) (data : δ) (docs : List (κ × δ)) :
    (docs.map (setOne ref data)).map Prod.fst = docs.map Prod.fst := by
  rw [List.map_map]
  apply List.map_congr_left
  intro d _
  exact setOne_fst ref data d

/-- A sequence of full replaces rewrites the documents of the collection in place
and adds the documents it creates at the end. -/
theorem applySets_eq (ws : List (κ × δ)) (docs : List (κ × δ)) :
    applySets ws docs = docs.map (setAll ws) ++ created ws (docs.map Prod.fst) := by
  induction ws generalizing docs with
  | nil =>
    simp only [applySets, List.foldl_nil, created, List.append_nil]
    conv_lhs => rw [← List.map_id docs]
    apply List.map_congr_left
    intro d _; rfl
  | cons w ws ih =>
    have hstep : applySets (w :: ws) docs = applySets ws (setDoc w.1 w.2 docs) := rfl
    rw [hstep, ih]
    by_cases h : w.1 ∈ docs.map Prod.fst
    · rw [setDoc_of_mem _ _ _ h, map_setOne_fst, List.map_map]
      simp only [created, if_pos h]
      rfl
    · rw [setDoc_of_not_mem _ _ _ h]
      simp only [created, if_neg h, List.map_append, List.map_cons, List.map_nil,
        List.append_assoc, List.singleton_append]
      congr 1
      apply List.map_congr_left
      intro d hd
      rw [setAll_cons, setOne_of_ne]
      intro e
      exact h (List.mem_map.mpr ⟨d, hd, e⟩)

theorem created_fst_not_mem (ws : List (κ × δ)) (paths : List κ) (d : κ × δ)
    (h : d ∈ created ws paths) : d.1 ∉ paths := by
  induction ws generalizing paths with
  | nil => simp [created] at h
  | cons w ws ih =>
    simp only [created] at h
    split at h
    · exact ih paths h
    · rename_i hw
      rcases List.mem_cons.mp h with h1 | h1
      · rw [h1, setAll_fst]; exact hw
      · intro hp
        exact ih _ h1 (List.mem_append_left _ hp)

theorem setAll_created (ws : List (κ × δ)) (paths : List κ) (d : κ × δ)
    (h : d ∈ created ws paths) : setAll ws d = d := by
  induction ws generalizing paths with
  | nil => rfl
  | cons w ws ih =>
    simp only [created] at h
    rw [setAll_cons]
    split at h
    · rename_i hw
      have hne : d.1 ≠ w.1 := by
        intro e
        exact created_fst_not_mem ws paths d h (by rw [e]; exact hw)
      rw [setOne_of_ne _ _ _ hne]
      exact ih paths h
    · rcases List.mem_cons.mp h with h1 | h1
      · have hk : d.1 = w.1 := by rw [h1, setAll_fst]
        rw [setOne_of_eq _ _ _ hk, h1]
      · have hne : d.1 ≠ w.1 := by
          intro e
          exact created_fst_not_mem ws _ d h1 (by rw [e]; simp)
        rw [setOne_of_ne _ _ _ hne]
        exact ih _ h1

theorem created_eq_nil (ws : List (κ × δ)) (paths : List κ)
    (h : ∀ w ∈ ws, w.1 ∈ paths) : created ws paths = [] := by
  induction ws generalizing paths with
  | nil => rfl
  | cons w ws ih =>
    simp only [created]
    rw [if_pos (h w (List.mem_cons_self _ _))]
    exact ih paths (fun x hx => h x (List.mem_cons_of_mem _ hx))

theorem mem_paths_or_created (ws : List (κ × δ)) (paths : List κ) (w : κ × δ) (hw : w ∈ ws) :
    w.1 ∈ paths ∨ w.1 ∈ (created ws paths).map Prod.fst := by
  induction ws generalizing paths with
  | nil => exact absurd hw (List.not_mem_nil _)
  | cons x xs ih =>
    simp only [created]
    by_cases hx : x.1 ∈ paths
    · rw [if_pos hx]
      rcases List.mem_cons.mp hw with h1 | h1
      · exact Or.inl (by rw [h1]; exact hx)
      · exact ih paths h1
    · rw [if_neg hx]
      rcases List.mem_cons.mp hw with h1 | h1
      · right
        rw [List.map_cons, h1, setAll_fst]
        exact List.mem_cons_self _ _
      · rcases ih (paths ++ [x.1]) h1 with h2 | h2
        · rcases List.mem_append.mp h2 with h3 | h3
          · exact Or.inl h3
          · right
            rw [List.mem_singleton] at h3
            rw [List.map_cons, h3, setAll_fst]
            exact List.mem_cons_self _ _
        · right
          rw [List.map_cons]
          exact List.mem_cons_of_mem _ h2

/-- Applying a sequence of full replaces a second time changes nothing. -/
theorem applySets_idem (ws : List (κ × δ)) (docs : List (κ × δ)) :
    applySets ws (applySets ws docs) = applySets ws docs := by
  rw [applySets_eq ws (applySets ws docs)]
  have hnil : created ws ((applySets ws docs).map Prod.fst) = [] := by
    apply created_eq_nil
    intro w hw
    rw [applySets_eq, List.map_append, List.mem_append]
    rcases mem_paths_or_created ws (docs.map Prod.fst) w hw with h | h
    · left
      rw [List.map_map]
      obtain ⟨d, hd, hr⟩ := List.mem_map.mp h
      exact List.mem_map.mpr ⟨d, hd, by simp only [Function.comp]; rw [setAll_fst]; exact hr⟩
    · exact Or.inr h
  rw [hnil, List.append_nil]
  conv_rhs => rw [← List.map_id (applySets ws docs)]
  apply List.map_congr_left
  intro d hd
  rw [applySets_eq, List.mem_append] at hd
  rcases hd with hd | hd
  · obtain ⟨e, _, he⟩ := List.mem_map.mp hd
    rw [← he, setAll_setAll]; rfl
  · rw [setAll_created ws _ d hd]; rfl

end Sets

/-! ## One run of the importer -/

theorem screenBatch_nil (lessonId : String) : screenBatch lessonId [] = [] := rfl

theorem screenBatch_cons (lessonId : String) (e : String × ScreenDoc)
    (es : List (String × ScreenDoc)) :
    screenBatch lessonId (e :: es) = Write.set (lessonId, e.1) e.2 :: screenBatch lessonId es :=
  rfl

/-- The loop over the entries of `screens` stages the entries up to the first one whose
identifier is rejected, and ends without an exception when none is. -/
theorem stageScreens_eq (docPath : String → Option (List String)) (lessonId : String)
    (entries : List (String × ScreenDoc)) (batch : List Write) :
    stageScreens docPath lessonId entries batch =
      if entries.all (fun e => accepts docPath e.1) = true then
        Except.ok (batch ++ screenBatch lessonId entries)
      else
        Except.error
          (batch ++ screenBatch lessonId (entries.takeWhile (fun e => accepts docPath e.1))) := by
  induction entries generalizing batch with
  | nil => simp [stageScreens, screenBatch_nil]
  | cons e es ih =>
    unfold stageScreens
    by_cases hv : accepts docPath e.1 = true
    · rw [if_pos hv, ih]
      simp only [List.all_cons, hv, Bool.true_and, List.takeWhile_cons_of_pos, screenBatch_cons,
        List.append_assoc, List.singleton_append]
    · rw [if_neg hv]
      have hv2 : accepts docPath e.1 = false := by simpa using hv
      simp [List.takeWhile_cons, hv2, screenBatch_nil]

/-- One iteration of the import loop sends the operations of the entry, stages its
writes and applies the operations to the store. -/
theorem importLesson_eq (docPath : String → Option (List String)) (dateOf : Value → Option Int)
    (st : Outcome) (entry : String × LessonDoc) :
    ∃ st1 : Outcome,
      importLesson docPath dateOf st entry =
        (if (entryOps (accepts docPath) dateOf entry).2 then Except.ok st1
          else Except.error st1) ∧
      st1.exit = st.exit ∧
      st1.trace = st.trace ++ (entryOps (accepts docPath) dateOf entry).1 ∧
      st1.staged = st.staged ++ entryStaged (accepts docPath) dateOf entry ∧
      st1.store = replay docPath (entryOps (accepts docPath) dateOf entry).1 st.store := by
  unfold importLesson entryOps entryStaged
  simp only
  cases hc : convertPublishedAt dateOf (entry.2.filter (fun f => f.1 ≠ "screens")) with
  | none => exact ⟨_, rfl, rfl, by simp, by simp, by simp [replay]⟩
  | some lessonDoc =>
    simp only
    by_cases hid : accepts docPath entry.1 = true
    · simp only [hid, if_true]
      cases hs : List.lookup "screens" entry.2 with
      | none => exact ⟨_, rfl, rfl, by simp, by simp, by simp [replay, applyOp]⟩
      | some v =>
        simp only
        by_cases ht : truthy v = true
        · simp only [ht, if_true]
          cases he : screenEntries v with
          | none => exact ⟨_, rfl, rfl, by simp, by simp, by simp [replay, applyOp]⟩
          | some entries =>
            simp only [stageScreens_eq, List.nil_append]
            by_cases hall : entries.all (fun e => accepts docPath e.1) = true
            · simp only [hall, if_true]
              have htw : entries.takeWhile (fun e => accepts docPath e.1) = entries := by
                rw [List.takeWhile_eq_self_iff]
                intro x hx
                exact List.all_eq_true.mp hall x hx
              exact ⟨_, rfl, rfl, by simp, by simp [htw], by simp [replay, applyOp]⟩
            · simp only [hall]
              exact ⟨_, rfl, rfl, by simp, by simp, by simp [replay, applyOp]⟩
        · simp only [ht]
          exact ⟨_, rfl, rfl, by simp, by simp, by simp [replay, applyOp]⟩
    · simp only [hid]
      exact ⟨_, rfl, rfl, by simp, by simp, by simp [replay]⟩

theorem committed_append (a b : List Op) : committed (a ++ b) = committed a ++ committed b := by
  induction a with
  | nil => rfl
  | cons op ops ih =>
    cases op <;> simp [committed, ih]

theorem replay_append (docPath : String → Option (List String)) (a b : List Op) (s : Store) :
    replay docPath (a ++ b) s = replay docPath b (replay docPath a s) := by
  unfold replay
  rw [List.foldl_append]

/-- The import loop sends the operations of the seed, stages its writes and applies the
operations to the store. -/
theorem importLoop_eq (docPath : String → Option (List String)) (dateOf : Value → Option Int)
    (seed : Seed) (st : Outcome) :
    ∃ st1 : Outcome,
      importLoop docPath dateOf seed st =
        (if (seedOps (accepts docPath) dateOf seed).2 then Except.ok st1
          else Except.error st1) ∧
      st1.exit = st.exit ∧
      st1.trace = st.trace ++ (seedOps (accepts docPath) dateOf seed).1 ∧
      st1.staged = st.staged ++ seedStaged (accepts docPath) dateOf seed ∧
      st1.store = replay docPath (seedOps (accepts docPath) dateOf seed).1 st.store := by
  induction seed generalizing st with
  | nil => exact ⟨st, rfl, rfl, by simp [seedOps], by simp [seedStaged], rfl⟩
  | cons entry rest ih =>
    obtain ⟨st1, h1, hx1, ht1, hg1, hs1⟩ := importLesson_eq docPath dateOf st entry
    unfold importLoop seedOps seedStaged
    by_cases hok : (entryOps (accepts docPath) dateOf entry).2 = true
    · rw [if_pos hok] at h1
      obtain ⟨st2, h2, hx2, ht2, hg2, hs2⟩ := ih st1
      refine ⟨st2, ?_, ?_, ?_, ?_, ?_⟩
      · rw [h1]; simp only [hok, if_true]; exact h2
      · rw [hx2, hx1]
      · simp only [hok, if_true]; rw [ht2, ht1, List.append_assoc]
      · simp only [hok, if_true]; rw [hg2, hg1, List.append_assoc]
      · simp only [hok, if_true]; rw [hs2, hs1, replay_append]
    · rw [if_neg hok] at h1
      refine ⟨st1, ?_, hx1, ?_, ?_, ?_⟩
      · rw [h1]; simp only [hok]; rfl
      · simp only [hok]; exact ht1
      · simp only [hok]; exact hg1
      · simp only [hok]; exact hs1

/-- A run of the importer: its exit status, the operations it sends, the writes it
stages and the store it leaves. -/
theorem importLessons_eq (docPath : String → Option (List String)) (dateOf : Value → Option Int)
    (seed : Seed) (s : Store) :
    (importLessons docPath dateOf seed s).exit =
        (if (seedOps (accepts docPath) dateOf seed).2 then 0 else 1) ∧
    (importLessons docPath dateOf seed s).trace = (seedOps (accepts docPath) dateOf seed).1 ∧
    (importLessons docPath dateOf seed s).staged = seedStaged (accepts docPath) dateOf seed ∧
    (importLessons docPath dateOf seed s).store =
      replay docPath (seedOps (accepts docPath) dateOf seed).1 s := by
  obtain ⟨st1, h1, _, ht1, hg1, hs1⟩ := importLoop_eq docPath dateOf seed
    { exit := 0, store := s, trace := [], staged := [], log := [LogLine.importing] }
  unfold importLessons
  rw [h1]
  by_cases hok : (seedOps (accepts docPath) dateOf seed).2 = true
  · simp only [hok, if_true]
    exact ⟨trivial, by simpa using ht1, by simpa using hg1, hs1⟩
  · simp only [hok]
    exact ⟨by simp, by simpa using ht1, by simpa using hg1, hs1⟩

/-! ## The store after a run of the importer -/

theorem applySets_cons {κ δ : Type} [DecidableEq κ] (w : κ × δ) (ws docs : List (κ × δ)) :
    applySets (w :: ws) docs = applySets ws (setDoc w.1 w.2 docs) := rfl

theorem applySets_append {κ δ : Type} [DecidableEq κ] (a b docs : List (κ × δ)) :
    applySets (a ++ b) docs = applySets b (applySets a docs) := by
  unfold applySets
  rw [List.foldl_append]

/-- A lesson write is a full replace in one of the two collections, or in neither. -/
theorem writeLesson_eq (docPath : String → Option (List String)) (lessonId : String)
    (doc : LessonDoc) (s : Store) :
    writeLesson docPath lessonId doc s =
      { lessons := applySets (lessonPut docPath lessonId doc) s.lessons
        screens := applySets (strayPut docPath lessonId doc) s.screens } := by
  unfold writeLesson lessonPut strayPut
  generalize docPath lessonId = p
  rcases p with _ | l
  · rfl
  · rcases l with _ | ⟨a, _ | ⟨c, _ | ⟨b, _ | ⟨d, l⟩⟩⟩⟩
    · rfl
    · rfl
    · rfl
    · by_cases hc : c = "screens"
      · simp only [hc, if_true]; rfl
      · simp only [hc, if_false]; rfl
    · rfl

/-- A write of a batch of the importer is a full replace of a screen document, or of
no document of the two collections. -/
theorem writeScreen_set (docPath : String → Option (List String)) (ref : ScreenRef)
    (data : ScreenDoc) (s : Store) :
    writeScreen docPath s (Write.set ref data) =
      { lessons := s.lessons
        screens := applySets (screenPut docPath ref data) s.screens } := by
  simp only [writeScreen, screenPut]
  generalize docPath ref.1 = p
  generalize docPath ref.2 = q
  rcases p with _ | l
  · rcases q with _ | m <;> rfl
  · rcases l with _ | ⟨a, _ | ⟨c, l⟩⟩
    · rcases q with _ | m <;> rfl
    · rcases q with _ | m
      · rfl
      · rcases m with _ | ⟨b, _ | ⟨d, m⟩⟩ <;> rfl
    · rcases q with _ | m <;> rfl

theorem commitBatch_eq (docPath : String → Option (List String)) (batch : List Write)
    (s : Store) (h : ∀ w ∈ batch, ∃ ref data, w = Write.set ref data) :
    commitBatch docPath batch s =
      { lessons := s.lessons
        screens := applySets (batchSets docPath batch) s.screens } := by
  induction batch generalizing s with
  | nil => rfl
  | cons w ws ih =>
    obtain ⟨ref, data, hw⟩ := h w (List.mem_cons_self _ _)
    subst hw
    have hstep : commitBatch docPath (Write.set ref data :: ws) s =
        commitBatch docPath ws (writeScreen docPath s (Write.set ref data)) := rfl
    rw [hstep, ih _ (fun x hx => h x (List.mem_cons_of_mem _ hx)), writeScreen_set]
    simp only [batchSets, applySets_append]

/-- The store after a sequence of operations of the importer: full replaces applied to
each of the two collections. -/
theorem replay_eq (docPath : String → Option (List String)) (ops : List Op) (s : Store)
    (h : ∀ w ∈ committed ops, ∃ ref data, w = Write.set ref data) :
    replay docPath ops s =
      { lessons := applySets (lessonSets docPath ops) s.lessons
        screens := applySets (screenSets docPath ops) s.screens } := by
  induction ops generalizing s with
  | nil => rfl
  | cons op ops ih =>
    have hstep : replay docPath (op :: ops) s = replay docPath ops (applyOp docPath s op) := rfl
    rw [hstep]
    cases op with
    | getLessons => exact ih _ h
    | getScreens lessonId => exact ih _ h
    | setLesson lessonId doc =>
      rw [ih _ h]
      simp only [applyOp, writeLesson_eq, lessonSets, screenSets, applySets_append]
    | commit batch =>
      have h1 : ∀ w ∈ batch, ∃ ref data, w = Write.set ref data := fun w hw =>
        h w (by simp only [committed, List.mem_append]; exact Or.inl hw)
      have h2 : ∀ w ∈ committed ops, ∃ ref data, w = Write.set ref data := fun w hw =>
        h w (by simp only [committed, List.mem_append]; exact Or.inr hw)
      rw [ih _ h2]
      simp only [applyOp, commitBatch_eq docPath batch s h1, lessonSets, screenSets,
        applySets_append]

theorem mem_screenBatch (lessonId : String) (entries : List (String × ScreenDoc)) (w : Write) :
    w ∈ screenBatch lessonId entries ↔
      ∃ screenId data, (screenId, data) ∈ entries ∧ w = Write.set (lessonId, screenId) data := by
  unfold screenBatch
  rw [List.mem_map]
  constructor
  · rintro ⟨e, he, hw⟩
    exact ⟨e.1, e.2, he, hw.symm⟩
  · rintro ⟨screenId, data, he, hw⟩
    exact ⟨(screenId, data), he, hw.symm⟩

/-- What one iteration of the import loop sends: under an accepted identifier, the
lesson document, then the batch of its `screens` mapping when it has a truthy one
whose identifiers are accepted. -/
theorem entryOps_mem (validId : String → Bool) (dateOf : Value → Option Int)
    (entry : String × LessonDoc) (op : Op) (h : op ∈ (entryOps validId dateOf entry).1) :
    validId entry.1 = true ∧
    ∃ doc, convertPublishedAt dateOf (entry.2.filter (fun f => f.1 ≠ "screens")) = some doc ∧
      (op = Op.setLesson entry.1 doc ∨
        ∃ v entries, entry.2.lookup "screens" = some v ∧ truthy v = true ∧
          screenEntries v = some entries ∧ entries.all (fun e => validId e.1) = true ∧
          op = Op.commit (screenBatch entry.1 entries)) := by
  unfold entryOps at h
  cases hc : convertPublishedAt dateOf (entry.2.filter (fun f => f.1 ≠ "screens")) with
  | none => rw [hc] at h; simp at h
  | some lessonDoc =>
    rw [hc] at h
    simp only at h
    by_cases hid : validId entry.1 = true
    · refine ⟨hid, lessonDoc, rfl, ?_⟩
      rw [if_pos hid] at h
      cases hs : List.lookup "screens" entry.2 with
      | none =>
        rw [hs] at h
        simp only [List.mem_singleton] at h
        exact Or.inl h
      | some v =>
        rw [hs] at h
        simp only at h
        by_cases ht : truthy v = true
        · simp only [ht, if_true] at h
          cases he : screenEntries v with
          | none =>
            rw [he] at h
            simp only [List.mem_singleton] at h
            exact Or.inl h
          | some entries =>
            rw [he] at h
            simp only at h
            by_cases hall : entries.all (fun e => validId e.1) = true
            · rw [if_pos hall] at h
              simp only [List.mem_cons, List.mem_singleton, List.not_mem_nil, or_false] at h
              rcases h with h | h
              · exact Or.inl h
              · exact Or.inr ⟨v, entries, rfl, ht, he, hall, h⟩
            · rw [if_neg hall] at h
              simp only [List.mem_singleton] at h
              exact Or.inl h
        · rw [if_neg ht] at h
          simp only [List.mem_singleton] at h
          exact Or.inl h
    · rw [if_neg hid] at h
      simp at h

theorem seedOps_mem (validId : String → Bool) (dateOf : Value → Option Int) (seed : Seed) (op : Op)
    (h : op ∈ (seedOps validId dateOf seed).1) :
    ∃ entry ∈ seed, op ∈ (entryOps validId dateOf entry).1 := by
  induction seed with
  | nil => simp [seedOps] at h
  | cons entry rest ih =>
    unfold seedOps at h
    split at h
    · simp only [List.mem_append] at h
      rcases h with h | h
      · exact ⟨entry, List.mem_cons_self _ _, h⟩
      · obtain ⟨e, he, hop⟩ := ih h
        exact ⟨e, List.mem_cons_of_mem _ he, hop⟩
    · exact ⟨entry, List.mem_cons_self _ _, h⟩

theorem mem_committed (ops : List Op) (w : Write) :
    w ∈ committed ops ↔ ∃ batch, Op.commit batch ∈ ops ∧ w ∈ batch := by
  induction ops with
  | nil => simp [committed]
  | cons op ops ih =>
    cases op with
    | commit batch =>
      simp only [committed, List.mem_append, ih, List.mem_cons, Op.commit.injEq]
      constructor
      · rintro (h | ⟨b, hb, hw⟩)
        · exact ⟨batch, Or.inl rfl, h⟩
        · exact ⟨b, Or.inr hb, hw⟩
      · rintro ⟨b, hb | hb, hw⟩
        · left; rw [← hb]; exact hw
        · exact Or.inr ⟨b, hb, hw⟩
    | getLessons => simp [committed, ih]
    | getScreens lessonId => simp [committed, ih]
    | setLesson lessonId doc => simp [committed, ih]

theorem seedOps_committed_sets (validId : String → Bool) (dateOf : Value → Option Int)
    (seed : Seed) (w : Write) (h : w ∈ committed (seedOps validId dateOf seed).1) :
    ∃ ref data, w = Write.set ref data := by
  obtain ⟨batch, hb, hw⟩ := (mem_committed _ w).mp h
  obtain ⟨entry, _, hop⟩ := seedOps_mem validId dateOf seed _ hb
  obtain ⟨_, doc, _, hcase⟩ := entryOps_mem validId dateOf entry _ hop
  rcases hcase with he | ⟨v, entries, _, _, _, _, he⟩
  · exact absurd he (by simp)
  · simp only [Op.commit.injEq] at he
    rw [he] at hw
    obtain ⟨screenId, data, _, hw2⟩ := (mem_screenBatch _ _ w).mp hw
    exact ⟨_, _, hw2⟩

/-- The store a run of the importer leaves: full replaces applied to each collection. -/
theorem importLessons_store (docPath : String → Option (List String))
    (dateOf : Value → Option Int) (seed : Seed) (s : Store) :
    (importLessons docPath dateOf seed s).store =
      { lessons := applySets (lessonSets docPath (seedOps (accepts docPath) dateOf seed).1)
          s.lessons
        screens := applySets (screenSets docPath (seedOps (accepts docPath) dateOf seed).1)
          s.screens } := by
  rw [(importLessons_eq docPath dateOf seed s).2.2.2]
  exact replay_eq docPath _ s
    (fun w hw => seedOps_committed_sets (accepts docPath) dateOf seed w hw)

/-- C9, as amended: the importer writes again whatever the store holds and changes
nothing by it: a second run in succession on the same seed ends with the same
status, sends the same operations and stages the same writes as the first run, and
leaves the store as the first run left it. -/
theorem importLessons_rerun (docPath : String → Option (List String))
    (dateOf : Value → Option Int) (seed : Seed) (s : Store) :
    (importLessons docPath dateOf seed (importLessons docPath dateOf seed s).store).exit =
        (importLessons docPath dateOf seed s).exit ∧
    (importLessons docPath dateOf seed (importLessons docPath dateOf seed s).store).trace =
        (importLessons docPath dateOf seed s).trace ∧
    (importLessons docPath dateOf seed (importLessons docPath dateOf seed s).store).staged =
        (importLessons docPath dateOf seed s).staged ∧
    (importLessons docPath dateOf seed (importLessons docPath dateOf seed s).store).store =
        (importLessons docPath dateOf seed s).store := by
  obtain ⟨hx1, ht1, hg1, _⟩ := importLessons_eq docPath dateOf seed s
  obtain ⟨hx2, ht2, hg2, _⟩ :=
    importLessons_eq docPath dateOf seed (importLessons docPath dateOf seed s).store
  refine ⟨by rw [hx1, hx2], by rw [ht1, ht2], by rw [hg1, hg2], ?_⟩
  rw [importLessons_store docPath dateOf seed (importLessons docPath dateOf seed s).store,
    importLessons_store docPath dateOf seed s]
  simp only [applySets_idem]

/-- C9, counterexample: no seed and no store make two successive runs of the importer
leave a store different from the one that a single run leaves. -/
theorem importLessons_not_idempotent_false :
    ¬ ∃ (docPath : String → Option (List String)) (dateOf : Value → Option Int) (seed : Seed)
        (s : Store),
        (importLessons docPath dateOf seed (importLessons docPath dateOf seed s).store).store ≠
          (importLessons docPath dateOf seed s).store := by
  rintro ⟨docPath, dateOf, seed, s, h⟩
  apply h
  rw [importLessons_store docPath dateOf seed (importLessons docPath dateOf seed s).store,
    importLessons_store docPath dateOf seed s]
  simp only [applySets_idem]

/-! ## The lesson document of a record -/

theorem any_of_lookup {β : Type} (key : String) (doc : List (String × β)) (v : β)
    (h : doc.lookup key = some v) : doc.any (fun f => f.1 == key) = true := by
  by_contra hn
  rw [lookup_eq_none_of_not_any key doc hn] at h
  exact absurd h (by simp)

theorem lookup_withoutScreens (record : LessonDoc) (k : String) (hk : k ≠ "screens") :
    (withoutScreens record).lookup k = record.lookup k := by
  unfold withoutScreens
  induction record with
  | nil => rfl
  | cons f fs ih =>
    obtain ⟨fk, fv⟩ := f
    by_cases hf : fk = "screens"
    · have hne : (k == fk) = false := by
        rw [beq_eq_false_iff_ne, hf]; exact hk
      rw [List.filter_cons_of_neg (by simp [hf]), List.lookup_cons, hne]
      exact ih
    · rw [List.filter_cons_of_pos (by simp [hf]), List.lookup_cons, List.lookup_cons]
      cases (k == fk) with
      | true => rfl
      | false => exact ih

theorem lookup_screens_withoutScreens (record : LessonDoc) :
    (withoutScreens record).lookup "screens" = none := by
  apply lookup_eq_none_of_not_any
  intro h
  rw [List.any_eq_true] at h
  obtain ⟨f, hf, hk⟩ := h
  unfold withoutScreens at hf
  rw [List.mem_filter] at hf
  have h1 : f.1 = "screens" := by simpa using hk
  have h2 : f.1 ≠ "screens" := by simpa using hf.2
  exact h2 h1

/-- The lesson document that the importer writes for a record: the record without
its `screens` field when it has no truthy `published_at`, and otherwise with
`published_at` replaced by the timestamp of its date. -/
theorem convertPublishedAt_eq (dateOf : Value → Option Int) (rest doc : LessonDoc)
    (h : convertPublishedAt dateOf rest = some doc) :
    doc.map Prod.fst = rest.map Prod.fst ∧
    (∀ k, k ≠ "published_at" → doc.lookup k = rest.lookup k) ∧
    (rest.lookup "published_at" = none → doc = rest) ∧
    (∀ v, rest.lookup "published_at" = some v → truthy v = false → doc = rest) ∧
    (∀ v, rest.lookup "published_at" = some v → truthy v = true →
        ∃ ms, dateOf v = some ms ∧
          doc.lookup "published_at" = some (Value.scalar (Scalar.timestamp ms))) := by
  unfold convertPublishedAt at h
  cases hl : List.lookup "published_at" rest with
  | none =>
    rw [hl] at h
    simp only [Option.some.injEq] at h
    subst h
    exact ⟨rfl, fun _ _ => rfl, fun _ => rfl, fun v hv => absurd hv (by simp),
      fun v hv => absurd hv (by simp)⟩
  | some v =>
    rw [hl] at h
    simp only at h
    by_cases ht : truthy v = true
    · rw [if_pos ht] at h
      cases hd : dateOf v with
      | none => rw [hd] at h; exact absurd h (by simp)
      | some ms =>
        rw [hd] at h
        simp only [Option.some.injEq] at h
        subst h
        refine ⟨?_, fun k hk => lookup_setField_ne _ k _ rest hk,
          fun hn => absurd hn (by simp), ?_, ?_⟩
        · rw [setField_of_any _ _ _ (any_of_lookup _ _ _ hl)]
          exact keys_map_set _ _ rest
        · intro w hw hf
          simp only [Option.some.injEq] at hw
          rw [← hw, ht] at hf
          exact absurd hf (by simp)
        · intro w hw _
          simp only [Option.some.injEq] at hw
          subst hw
          exact ⟨ms, hd, lookup_setField_self _ _ rest⟩
    · rw [if_neg ht] at h
      simp only [Option.some.injEq] at h
      subst h
      refine ⟨rfl, fun _ _ => rfl, fun _ => rfl, fun _ _ _ => rfl, ?_⟩
      intro w hw hwt
      simp only [Option.some.injEq] at hw
      rw [hw] at ht
      exact absurd hwt ht

theorem screenEntries_eq_map (v : Value) (entries : List (String × ScreenDoc))
    (h : screenEntries v = some entries) (hne : entries ≠ []) : v = Value.map entries := by
  cases v with
  | map m =>
    simp only [screenEntries, Option.some.injEq] at h
    rw [h]
  | scalar x =>
    cases x <;> simp only [screenEntries, Option.some.injEq] at h
    all_goals first | exact absurd h.symm hne | exact absurd h (by simp)

theorem filter_screenBatch_nil (lessonId screenId : String) (entries : List (String × ScreenDoc))
    (h : screenId ∉ entries.map Prod.fst) :
    (screenBatch lessonId entries).filter (fun w => decide (w.ref = (lessonId, screenId))) = [] := by
  rw [List.filter_eq_nil_iff]
  intro w hw
  obtain ⟨sid, data, he, hw2⟩ := (mem_screenBatch _ _ w).mp hw
  subst hw2
  simp only [Write.ref, Prod.mk.injEq, true_and, decide_eq_true_eq]
  intro e
  exact h (List.mem_map.mpr ⟨(sid, data), he, e⟩)

theorem filter_screenBatch (lessonId screenId : String) (data : ScreenDoc)
    (entries : List (String × ScreenDoc)) (hnodup : (entries.map Prod.fst).Nodup)
    (h : (screenId, data) ∈ entries) :
    (screenBatch lessonId entries).filter (fun w => decide (w.ref = (lessonId, screenId))) =
      [Write.set (lessonId, screenId) data] := by
  induction entries with
  | nil => exact absurd h (List.not_mem_nil _)
  | cons e es ih =>
    rw [List.map_cons, List.nodup_cons] at hnodup
    have hcons : screenBatch lessonId (e :: es) =
        Write.set (lessonId, e.1) e.2 :: screenBatch lessonId es := rfl
    rw [hcons]
    rcases List.mem_cons.mp h with h1 | h1
    · subst h1
      rw [List.filter_cons_of_pos (by simp [Write.ref]),
        filter_screenBatch_nil lessonId screenId es hnodup.1]
    · have hne : e.1 ≠ screenId := by
        intro e1
        exact hnodup.1 (List.mem_map.mpr ⟨(screenId, data), h1, e1.symm⟩)
      rw [List.filter_cons_of_neg (by simp [Write.ref, hne])]
      exact ih hnodup.2 h1

theorem holdsFieldsOf_of_convert (dateOf : Value → Option Int) (record doc : LessonDoc)
    (h : convertPublishedAt dateOf (withoutScreens record) = some doc) :
    HoldsFieldsOf dateOf record doc := by
  obtain ⟨hkeys, hlook, hnone, hfalsy, htruthy⟩ := convertPublishedAt_eq dateOf _ doc h
  have hrec : (withoutScreens record).lookup "published_at" = record.lookup "published_at" :=
    lookup_withoutScreens record _ (by decide)
  refine ⟨hkeys, ?_, ?_, ?_, ?_, ?_⟩
  · rw [hlook "screens" (by decide)]
    exact lookup_screens_withoutScreens record
  · intro k hk1 hk2
    rw [hlook k hk2]
    exact lookup_withoutScreens record k hk1
  · intro hp
    exact hnone (by rw [hrec]; exact hp)
  · intro v hv hf
    exact hfalsy v (by rw [hrec]; exact hv) hf
  · intro v hv ht
    exact htruthy v (by rw [hrec]; exact hv) ht

/-! ## Runs of the importer that end without an exception -/

theorem entryStaged_mem (validId : String → Bool) (dateOf : Value → Option Int)
    (entry : String × LessonDoc) (w : Write) (h : w ∈ entryStaged validId dateOf entry) :
    ∃ v entries, entry.2.lookup "screens" = some v ∧ screenEntries v = some entries ∧
      w ∈ screenBatch entry.1 entries := by
  unfold entryStaged at h
  cases hc : convertPublishedAt dateOf (entry.2.filter (fun f => f.1 ≠ "screens")) with
  | none => rw [hc] at h; simp at h
  | some lessonDoc =>
    rw [hc] at h
    simp only at h
    by_cases hid : validId entry.1 = true
    · rw [if_pos hid] at h
      cases hs : List.lookup "screens" entry.2 with
      | none => rw [hs] at h; simp at h
      | some v =>
        rw [hs] at h
        simp only at h
        by_cases ht : truthy v = true
        · rw [if_pos ht] at h
          cases he : screenEntries v with
          | none => rw [he] at h; simp at h
          | some entries =>
            rw [he] at h
            simp only at h
            refine ⟨v, entries, rfl, he, ?_⟩
            obtain ⟨screenId, data, hm, hw⟩ := (mem_screenBatch _ _ w).mp h
            exact (mem_screenBatch _ _ w).mpr
              ⟨screenId, data, (List.takeWhile_sublist _).subset hm, hw⟩
        · rw [if_neg ht] at h; simp at h
    · rw [if_neg hid] at h; simp at h

theorem seedStaged_mem (validId : String → Bool) (dateOf : Value → Option Int) (seed : Seed)
    (w : Write) (h : w ∈ seedStaged validId dateOf seed) :
    ∃ entry ∈ seed, w ∈ entryStaged validId dateOf entry := by
  induction seed with
  | nil => simp [seedStaged] at h
  | cons entry rest ih =>
    unfold seedStaged at h
    split at h
    · rcases List.mem_append.mp h with h | h
      · exact ⟨entry, List.mem_cons_self _ _, h⟩
      · obtain ⟨e, he, hw⟩ := ih h
        exact ⟨e, List.mem_cons_of_mem _ he, hw⟩
    · exact ⟨entry, List.mem_cons_self _ _, h⟩

/-- An iteration that ends without an exception has written the lesson document under
an accepted identifier, then committed the batch of the `screens` mapping: it has sent
the operations of the spec, and has staged what it has committed. -/
theorem entryOps_ok (validId : String → Bool) (dateOf : Value → Option Int)
    (entry : String × LessonDoc) (h : (entryOps validId dateOf entry).2 = true) :
    validId entry.1 = true ∧
    ∃ doc, convertPublishedAt dateOf (withoutScreens entry.2) = some doc ∧
      (entryOps validId dateOf entry).1 = specOps entry doc ∧
      entryStaged validId dateOf entry = committed (specOps entry doc) := by
  unfold entryOps at h
  unfold entryOps entryStaged specOps withoutScreens
  cases hc : convertPublishedAt dateOf (entry.2.filter (fun f => f.1 ≠ "screens")) with
  | none => rw [hc] at h; simp at h
  | some lessonDoc =>
    rw [hc] at h
    simp only at h ⊢
    by_cases hid : validId entry.1 = true
    · rw [if_pos hid] at h
      refine ⟨hid, lessonDoc, rfl, ?_⟩
      simp only [hid, if_true]
      cases hs : List.lookup "screens" entry.2 with
      | none => exact ⟨rfl, rfl⟩
      | some v =>
        rw [hs] at h
        simp only at h ⊢
        by_cases ht : truthy v = true
        · rw [if_pos ht] at h
          simp only [ht, if_true]
          cases he : screenEntries v with
          | none => rw [he] at h; simp at h
          | some entries =>
            rw [he] at h
            simp only at h ⊢
            by_cases hall : entries.all (fun e => validId e.1) = true
            · have htw : entries.takeWhile (fun e => validId e.1) = entries := by
                rw [List.takeWhile_eq_self_iff]
                intro x hx
                exact List.all_eq_true.mp hall x hx
              simp only [hall, if_true, htw]
              cases v with
              | map m =>
                simp only [screenEntries, Option.some.injEq] at he
                subst he
                exact ⟨rfl, by simp [committed, screenBatch]⟩
              | scalar x =>
                have hnil : entries = [] := by
                  cases x <;> simp only [screenEntries, Option.some.injEq] at he
                  all_goals first | exact he.symm | exact absurd he (by simp)
                subst hnil
                simp only [ht, if_true]
                exact ⟨rfl, by simp [committed, screenBatch]⟩
            · rw [if_neg hall] at h; simp at h
        · simp only [ht]
          cases v with
          | map m => simp [truthy] at ht
          | scalar x =>
            simp only [ht]
            exact ⟨by simp, by simp [committed]⟩
    · rw [if_neg hid] at h; simp at h

theorem seedOps_ok (validId : String → Bool) (dateOf : Value → Option Int) (seed : Seed)
    (h : (seedOps validId dateOf seed).2 = true) (entry : String × LessonDoc)
    (he : entry ∈ seed) :
    (entryOps validId dateOf entry).2 = true ∧
      ∀ op ∈ (entryOps validId dateOf entry).1, op ∈ (seedOps validId dateOf seed).1 := by
  induction seed with
  | nil => exact absurd he (List.not_mem_nil _)
  | cons e rest ih =>
    unfold seedOps at h ⊢
    by_cases hok : (entryOps validId dateOf e).2 = true
    · rw [if_pos hok] at h ⊢
      simp only at h ⊢
      rcases List.mem_cons.mp he with h1 | h1
      · subst h1
        exact ⟨hok, fun op hop => List.mem_append_left _ hop⟩
      · obtain ⟨h2, h3⟩ := ih h h1
        exact ⟨h2, fun op hop => List.mem_append_right _ (h3 op hop)⟩
    · rw [if_neg hok] at h
      exact absurd h (by simp)

theorem seedOps_of_exit (docPath : String → Option (List String))
    (dateOf : Value → Option Int) (seed : Seed) (s : Store)
    (h : (importLessons docPath dateOf seed s).exit = 0) :
    (seedOps (accepts docPath) dateOf seed).2 = true := by
  rw [(importLessons_eq docPath dateOf seed s).1] at h
  by_contra hn
  rw [if_neg hn] at h
  exact absurd h (by decide)

/-- A loop that ends without an exception has sent, entry after entry, the operations
of the spec, each with a lesson document that holds the fields of the record, and has
staged what it has committed. -/
theorem seedOps_eq_specOps (validId : String → Bool) (dateOf : Value → Option Int) (seed : Seed)
    (h : (seedOps validId dateOf seed).2 = true) :
    ∃ docs, List.Forall₂ (fun entry doc => HoldsFieldsOf dateOf entry.2 doc) seed docs ∧
      (seedOps validId dateOf seed).1 = (List.zipWith specOps seed docs).flatten ∧
      seedStaged validId dateOf seed = committed (seedOps validId dateOf seed).1 := by
  induction seed with
  | nil => exact ⟨[], List.Forall₂.nil, rfl, rfl⟩
  | cons e rest ih =>
    unfold seedOps at h
    by_cases hok : (entryOps validId dateOf e).2 = true
    · rw [if_pos hok] at h
      simp only at h
      obtain ⟨docs, hall, hops, hstaged⟩ := ih h
      obtain ⟨_, doc, hconv, hspec, hst⟩ := entryOps_ok validId dateOf e hok
      refine ⟨doc :: docs,
        List.Forall₂.cons (holdsFieldsOf_of_convert dateOf e.2 doc hconv) hall, ?_, ?_⟩
      · unfold seedOps
        rw [if_pos hok]
        simp only [List.zipWith_cons_cons, List.flatten_cons]
        rw [hspec, hops]
      · unfold seedOps seedStaged
        rw [if_pos hok, if_pos hok]
        simp only
        rw [committed_append, hst, hspec, hstaged]
    · rw [if_neg hok] at h
      exact absurd h (by simp)

/-! ## The claims about the importer -/

theorem mappingOf_map (record : LessonDoc) (entries : List (String × ScreenDoc))
    (h : record.lookup "screens" = some (Value.map entries)) : mappingOf record = entries := by
  unfold mappingOf
  rw [h]

theorem entryStaged_initial (validId : String → Bool) (dateOf : Value → Option Int)
    (entry : String × LessonDoc) :
    entryStaged validId dateOf entry <+: screenBatch entry.1 (mappingOf entry.2) := by
  unfold entryStaged
  cases hc : convertPublishedAt dateOf (entry.2.filter (fun f => f.1 ≠ "screens")) with
  | none => exact List.nil_prefix
  | some lessonDoc =>
    simp only
    by_cases hid : validId entry.1 = true
    · rw [if_pos hid]
      cases hs : List.lookup "screens" entry.2 with
      | none => exact List.nil_prefix
      | some v =>
        simp only
        by_cases ht : truthy v = true
        · rw [if_pos ht]
          cases he : screenEntries v with
          | none => exact List.nil_prefix
          | some entries =>
            simp only
            cases v with
            | map m =>
              simp only [screenEntries, Option.some.injEq] at he
              subst he
              rw [mappingOf_map entry.2 m hs]
              unfold screenBatch
              exact (List.takeWhile_prefix _).map _
            | scalar x =>
              have hnil : entries = [] := by
                cases x <;> simp only [screenEntries, Option.some.injEq] at he
                all_goals first | exact he.symm | exact absurd he (by simp)
              subst hnil
              exact List.nil_prefix
        · rw [if_neg ht]
          exact List.nil_prefix
    · rw [if_neg hid]
      exact List.nil_prefix

theorem entryStaged_ok (validId : String → Bool) (dateOf : Value → Option Int)
    (entry : String × LessonDoc) (hok : (entryOps validId dateOf entry).2 = true) :
    entryStaged validId dateOf entry = screenBatch entry.1 (mappingOf entry.2) := by
  obtain ⟨_, doc, _, _, hst⟩ := entryOps_ok validId dateOf entry hok
  rw [hst]
  unfold specOps mappingOf
  cases hs : List.lookup "screens" entry.2 with
  | none => simp [committed, screenBatch]
  | some v =>
    cases v with
    | map m => simp [committed, screenBatch]
    | scalar x =>
      simp only
      by_cases ht : truthy (Value.scalar x) = true
      · rw [if_pos ht]; simp [committed, screenBatch]
      · rw [if_neg ht]; simp [committed, screenBatch]

/-- The writes staged in a run are the first writes of the spec for the seed, and all
of them when the loop ends without an exception. -/
theorem seedStaged_initial (validId : String → Bool) (dateOf : Value → Option Int)
    (seed : Seed) :
    seedStaged validId dateOf seed <+: seedWrites seed ∧
    ((seedOps validId dateOf seed).2 = true → seedStaged validId dateOf seed = seedWrites seed) := by
  induction seed with
  | nil => exact ⟨List.nil_prefix, fun _ => rfl⟩
  | cons e rest ih =>
    have hw : seedWrites (e :: rest) = screenBatch e.1 (mappingOf e.2) ++ seedWrites rest := by
      simp [seedWrites]
    unfold seedStaged seedOps
    rw [hw]
    by_cases hok : (entryOps validId dateOf e).2 = true
    · rw [if_pos hok, if_pos hok, entryStaged_ok validId dateOf e hok]
      exact ⟨(List.prefix_append_right_inj _).mpr ih.1, fun h => by rw [ih.2 h]⟩
    · rw [if_neg hok, if_neg hok]
      refine ⟨(entryStaged_initial validId dateOf e).trans (List.prefix_append _ _), ?_⟩
      intro h
      exact absurd h (by simp)

/-- An iteration that an exception ends has sent nothing, or the lesson document. -/
theorem entryOps_fail (validId : String → Bool) (dateOf : Value → Option Int)
    (entry : String × LessonDoc) (h : ¬ (entryOps validId dateOf entry).2 = true) :
    (entryOps validId dateOf entry).1 = [] ∨
    ∃ doc, convertPublishedAt dateOf (withoutScreens entry.2) = some doc ∧
      (entryOps validId dateOf entry).1 = [Op.setLesson entry.1 doc] := by
  unfold entryOps at h ⊢
  unfold withoutScreens
  cases hc : convertPublishedAt dateOf (entry.2.filter (fun f => f.1 ≠ "screens")) with
  | none => exact Or.inl rfl
  | some lessonDoc =>
    rw [hc] at h
    simp only at h ⊢
    by_cases hid : validId entry.1 = true
    · rw [if_pos hid] at h ⊢
      refine Or.inr ⟨lessonDoc, rfl, ?_⟩
      cases hs : List.lookup "screens" entry.2 with
      | none => rfl
      | some v =>
        rw [hs] at h
        simp only at h ⊢
        by_cases ht : truthy v = true
        · rw [if_pos ht] at h ⊢
          cases he : screenEntries v with
          | none => rfl
          | some entries =>
            rw [he] at h
            simp only at h ⊢
            by_cases hall : entries.all (fun e => validId e.1) = true
            · rw [if_pos hall] at h
              exact absurd rfl h
            · rw [if_neg hall]
        · rw [if_neg ht]
    · rw [if_neg hid]
      exact Or.inl rfl

/-- The operations sent in a run are, in order, the first operations of the spec for
the first entries of the seed, each with a lesson document that holds the fields of
its record. -/
theorem seedOps_initial (validId : String → Bool) (dateOf : Value → Option Int) (seed : Seed) :
    ∃ docs, List.Forall₂ (fun entry doc => HoldsFieldsOf dateOf entry.2 doc)
        (seed.take docs.length) docs ∧
      (seedOps validId dateOf seed).1 <+: (List.zipWith specOps seed docs).flatten := by
  induction seed with
  | nil => exact ⟨[], List.Forall₂.nil, List.nil_prefix⟩
  | cons e rest ih =>
    unfold seedOps
    by_cases hok : (entryOps validId dateOf e).2 = true
    · rw [if_pos hok]
      obtain ⟨_, doc, hconv, hspec, _⟩ := entryOps_ok validId dateOf e hok
      obtain ⟨docs, hall, hpre⟩ := ih
      refine ⟨doc :: docs, ?_, ?_⟩
      · simp only [List.length_cons, List.take_succ_cons]
        exact List.Forall₂.cons (holdsFieldsOf_of_convert dateOf e.2 doc hconv) hall
      · simp only [List.zipWith_cons_cons, List.flatten_cons]
        rw [hspec]
        exact (List.prefix_append_right_inj _).mpr hpre
    · rw [if_neg hok]
      rcases entryOps_fail validId dateOf e hok with h | ⟨doc, hconv, h⟩
      · exact ⟨[], List.Forall₂.nil, by rw [h]; exact List.nil_prefix⟩
      · refine ⟨[doc], ?_, ?_⟩
        · simp only [List.length_singleton, List.take_succ_cons, List.take_zero]
          exact List.Forall₂.cons (holdsFieldsOf_of_convert dateOf e.2 doc hconv) List.Forall₂.nil
        · rw [h]
          cases rest with
          | nil =>
            simp only [List.zipWith_cons_cons, List.zipWith_nil_right, List.flatten_cons,
              List.flatten_nil, List.append_nil]
            unfold specOps
            exact List.prefix_append [Op.setLesson e.1 doc] _
          | cons e2 rest2 =>
            simp only [List.zipWith_cons_cons, List.zipWith_nil_right, List.flatten_cons,
              List.flatten_nil, List.append_nil]
            unfold specOps
            exact List.prefix_append [Op.setLesson e.1 doc] _

theorem filter_of_nodup {α β : Type} [DecidableEq β] (key : α → β) (l : List α)
    (h : (l.map key).Nodup) (x : α) (hx : x ∈ l) :
    l.filter (fun y => decide (key y = key x)) = [x] := by
  induction l with
  | nil => exact absurd hx (List.not_mem_nil _)
  | cons a l ih =>
    rw [List.map_cons, List.nodup_cons] at h
    rcases List.mem_cons.mp hx with h1 | h1
    · subst h1
      have hrest : l.filter (fun y => decide (key y = key x)) = [] := by
        rw [List.filter_eq_nil_iff]
        intro y hy
        simp only [decide_eq_true_eq]
        intro hk
        exact h.1 (List.mem_map.mpr ⟨y, hy, hk⟩)
      simp [List.filter_cons, hrest]
    · have hne : key a ≠ key x := by
        intro hk
        exact h.1 (List.mem_map.mpr ⟨x, h1, hk.symm⟩)
      simp only [List.filter_cons, hne, decide_False, Bool.false_eq_true, if_false]
      exact ih h.2 h1

theorem mem_seedWrites (seed : Seed) (lessonId : String) (record : LessonDoc)
    (entries : List (String × ScreenDoc)) (he : (lessonId, record) ∈ seed)
    (hs : record.lookup "screens" = some (Value.map entries)) (screenId : String)
    (data : ScreenDoc) (hm : (screenId, data) ∈ entries) :
    Write.set (lessonId, screenId) data ∈ seedWrites seed := by
  unfold seedWrites
  rw [List.mem_flatten]
  refine ⟨screenBatch lessonId entries, ?_, ?_⟩
  · rw [List.mem_map]
    exact ⟨(lessonId, record), he, by rw [mappingOf_map record entries hs]⟩
  · exact (mem_screenBatch lessonId entries _).mpr ⟨screenId, data, hm, rfl⟩

/-- C6, as amended: the operations that a run of the importer sends are, in order,
the first operations of the spec for the lesson entries of the seed (the write of a
lesson document that holds the fields of the record other than `screens`, then the
commit of one batch with one write for each entry of the `screens` mapping), and the
writes that it stages are the first writes of the spec (for every entry of a
`screens` mapping one write of its data at `lessons/{lessonId}/screens/{screenId}`);
in a run that ends with status 0 they are all the operations and all the writes of
the spec and nothing else, every staged write is committed, and, when the entries of
the seed name different documents, exactly one write is staged at the document of
each entry. -/
theorem importLessons_writes_seed (docPath : String → Option (List String))
    (dateOf : Value → Option Int) (seed : Seed) (s : Store) :
    (∃ docs, List.Forall₂ (fun entry doc => HoldsFieldsOf dateOf entry.2 doc)
        (seed.take docs.length) docs ∧
      (importLessons docPath dateOf seed s).trace <+: (List.zipWith specOps seed docs).flatten) ∧
    (importLessons docPath dateOf seed s).staged <+: seedWrites seed ∧
    ((importLessons docPath dateOf seed s).exit = 0 →
      (∃ docs, List.Forall₂ (fun entry doc => HoldsFieldsOf dateOf entry.2 doc) seed docs ∧
        (importLessons docPath dateOf seed s).trace =
          (List.zipWith specOps seed docs).flatten) ∧
      (importLessons docPath dateOf seed s).staged = seedWrites seed ∧
      (importLessons docPath dateOf seed s).staged =
        committed (importLessons docPath dateOf seed s).trace ∧
      (((seedWrites seed).map (fun w => refPath docPath w.ref)).Nodup →
        ∀ lessonId record entries, (lessonId, record) ∈ seed →
          record.lookup "screens" = some (Value.map entries) →
          ∀ screenId data, (screenId, data) ∈ entries →
            (importLessons docPath dateOf seed s).staged.filter
                (fun w => decide (refPath docPath w.ref = refPath docPath (lessonId, screenId))) =
              [Write.set (lessonId, screenId) data])) := by
  obtain ⟨hexit, htrace, hstaged, _⟩ := importLessons_eq docPath dateOf seed s
  rw [htrace, hstaged]
  refine ⟨seedOps_initial (accepts docPath) dateOf seed,
    (seedStaged_initial (accepts docPath) dateOf seed).1, ?_⟩
  intro hx
  have hok := seedOps_of_exit docPath dateOf seed s hx
  obtain ⟨docs, hall, hops, hst⟩ := seedOps_eq_specOps (accepts docPath) dateOf seed hok
  have hall2 := (seedStaged_initial (accepts docPath) dateOf seed).2 hok
  refine ⟨⟨docs, hall, hops⟩, hall2, hst, ?_⟩
  intro hnodup lessonId record entries he hs screenId data hm
  rw [hall2]
  exact filter_of_nodup (fun w => refPath docPath w.ref) (seedWrites seed) hnodup
    (Write.set (lessonId, screenId) data) (mem_seedWrites seed lessonId record entries he hs
      screenId data hm)

/-- C6, witness: the seed of end-to-end scenario 1, imported into the empty store. -/
theorem importLessons_writes_seed_witness :
    (importLessons sampleDocPath sampleDateOf scenario1Seed emptyStore).exit = 0 ∧
    (∃ docs,
      List.Forall₂ (fun entry doc => HoldsFieldsOf sampleDateOf entry.2 doc) scenario1Seed docs ∧
      (importLessons sampleDocPath sampleDateOf scenario1Seed emptyStore).trace =
        (List.zipWith specOps scenario1Seed docs).flatten) ∧
    (importLessons sampleDocPath sampleDateOf scenario1Seed emptyStore).staged =
      seedWrites scenario1Seed ∧
    ((seedWrites scenario1Seed).map (fun w => refPath sampleDocPath w.ref)).Nodup ∧
    (importLessons sampleDocPath sampleDateOf scenario1Seed emptyStore).staged.filter
        (fun w => decide (refPath sampleDocPath w.ref =
          refPath sampleDocPath ("L1", "screen_001"))) =
      [Write.set ("L1", "screen_001") [("text", Scalar.string "a")]] :=
  ⟨by decide,
    ((importLessons_writes_seed sampleDocPath sampleDateOf scenario1Seed emptyStore).2.2
      (by decide)).1,
    ((importLessons_writes_seed sampleDocPath sampleDateOf scenario1Seed emptyStore).2.2
      (by decide)).2.1,
    by decide,
    ((importLessons_writes_seed sampleDocPath sampleDateOf scenario1Seed emptyStore).2.2
      (by decide)).2.2.2 (by decide) "L1"
      [("title", Value.scalar (Scalar.string "Intro")),
       ("screens", Value.map
          [("screen_001", [("text", Scalar.string "a")]),
           ("screen_002", [("text", Scalar.string "b")])])]
      [("screen_001", [("text", Scalar.string "a")]),
       ("screen_002", [("text", Scalar.string "b")])]
      (by decide) (by decide) "screen_001" [("text", Scalar.string "a")] (by decide)⟩

/-- C6, counterexample: a run that an exception ends does not write the document of
every lesson entry nor stage a write for every entry of a `screens` mapping: the
lesson with a `published_at` that is no date and the lesson after it are not written;
a screen identifier `a/b` leaves the batch of its lesson uncommitted; and a
`published_at` that is a date is written as a timestamp, not as the value of the
record. -/
theorem importLessons_aborted :
    ("L2", [("title", Value.scalar (Scalar.string "Draft"))]) ∈ badDateSeed ∧
    (importLessons sampleDocPath sampleDateOf badDateSeed emptyStore).exit = 1 ∧
    (importLessons sampleDocPath sampleDateOf badDateSeed emptyStore).trace = [] ∧
    (importLessons sampleDocPath sampleDateOf badDateSeed emptyStore).store = emptyStore ∧
    badScreenSeed.lookup "L1" =
      some [("title", Value.scalar (Scalar.string "Intro")),
            ("screens", Value.map
              [("screen_001", [("text", Scalar.string "a")]),
               ("a/b", [("text", Scalar.string "b")])])] ∧
    sampleDocPath "a/b" = none ∧
    (importLessons sampleDocPath sampleDateOf badScreenSeed emptyStore).exit = 1 ∧
    (importLessons sampleDocPath sampleDateOf badScreenSeed emptyStore).trace =
      [Op.setLesson "L1" [("title", Value.scalar (Scalar.string "Intro"))]] ∧
    (importLessons sampleDocPath sampleDateOf badScreenSeed emptyStore).staged =
      [Write.set ("L1", "screen_001") [("text", Scalar.string "a")]] ∧
    (importLessons sampleDocPath sampleDateOf badScreenSeed emptyStore).store.screens = [] ∧
    (importLessons sampleDocPath sampleDateOf datedSeed emptyStore).exit = 0 ∧
    (importLessons sampleDocPath sampleDateOf datedSeed emptyStore).trace =
      [Op.setLesson "L1"
        [("title", Value.scalar (Scalar.string "Intro")),
         ("published_at", Value.scalar (Scalar.timestamp 1705276800000))],
       Op.setLesson "L2" [("title", Value.scalar (Scalar.string "Draft"))]] := by
  decide

/-- End-to-end scenario 1: the store after the import of the scenario seed. -/
theorem importLessons_scenario1 :
    sampleDocPath "L1" = some ["L1"] ∧
    (importLessons sampleDocPath sampleDateOf scenario1Seed emptyStore).store =
      { lessons := [("L1", [("title", Value.scalar (Scalar.string "Intro"))])]
        screens :=
          [(("L1", "screen_001"), [("text", Scalar.string "a")]),
           (("L1", "screen_002"), [("text", Scalar.string "b")])] } ∧
    (importLessons sampleDocPath sampleDateOf scenario1Seed emptyStore).trace =
      [Op.setLesson "L1" [("title", Value.scalar (Scalar.string "Intro"))],
       Op.commit
        [Write.set ("L1", "screen_001") [("text", Scalar.string "a")],
         Write.set ("L1", "screen_002") [("text", Scalar.string "b")]]] := by
  decide

/-- The import of a seed whose lesson has the empty identifier ends with status 1
without a write. -/
theorem importLessons_empty_id_example :
    sampleDocPath "" = none ∧
    (importLessons sampleDocPath sampleDateOf emptyIdSeed emptyStore).exit = 1 ∧
    (importLessons sampleDocPath sampleDateOf emptyIdSeed emptyStore).trace = [] ∧
    (importLessons sampleDocPath sampleDateOf emptyIdSeed emptyStore).store = emptyStore := by
  decide

/-- Identifiers of several segments: the lesson identifier `a/b/c` names a document of
another collection, and the write changes neither `lessons` nor the screens of a
lesson; the lesson identifier `L1/screens/s1` names a screen of the lesson `L1`; the
screen identifiers `s` and `s/` name one document, which holds the data of the later
write. -/
theorem importLessons_path_example :
    sampleDocPath "a/b/c" = some ["a", "b", "c"] ∧
    (importLessons sampleDocPath sampleDateOf deepSeed emptyStore).exit = 0 ∧
    (importLessons sampleDocPath sampleDateOf deepSeed emptyStore).trace =
      [Op.setLesson "a/b/c" [("title", Value.scalar (Scalar.string "Intro"))]] ∧
    (importLessons sampleDocPath sampleDateOf deepSeed emptyStore).store = emptyStore ∧
    (importLessons sampleDocPath sampleDateOf straySeed emptyStore).store =
      { lessons := []
        screens := [(("L1", "s1"), [("title", Scalar.string "Intro")])] } ∧
    (importLessons sampleDocPath sampleDateOf aliasSeed emptyStore).exit = 0 ∧
    (importLessons sampleDocPath sampleDateOf aliasSeed emptyStore).staged =
      [Write.set ("L1", "s") [("text", Scalar.string "a")],
       Write.set ("L1", "s/") [("text", Scalar.string "b")],
       Write.set ("L1", "x/y/z") [("text", Scalar.string "c")]] ∧
    (importLessons sampleDocPath sampleDateOf aliasSeed emptyStore).store =
      { lessons := [("L1", [])]
        screens := [(("L1", "s"), [("text", Scalar.string "b")])] } := by
  decide

theorem lessonSets_specOps (docPath : String → Option (List String))
    (entry : String × LessonDoc) (doc : LessonDoc) (id : String)
    (hid : docPath entry.1 = some [id]) :
    lessonSets docPath (specOps entry doc) = [(id, doc)] := by
  have hput : lessonPut docPath entry.1 doc = [(id, doc)] := by
    unfold lessonPut
    rw [hid]
  unfold specOps
  cases hs : List.lookup "screens" entry.2 with
  | none => simp [lessonSets, hput]
  | some v =>
    cases v with
    | map m => simp [lessonSets, hput]
    | scalar x =>
      simp only
      by_cases ht : truthy (Value.scalar x) = true
      · rw [if_pos ht]; simp [lessonSets, hput]
      · rw [if_neg ht]; simp [lessonSets, hput]

theorem lookup_setDoc_self (lessonId : String) (doc : LessonDoc)
    (lessons : List (String × LessonDoc)) :
    (setDoc lessonId doc lessons).lookup lessonId = some doc :=
  lookup_setField_self lessonId doc lessons

theorem eq_of_mem_setDoc (lessonId : String) (doc d : LessonDoc)
    (lessons : List (String × LessonDoc)) (h : (lessonId, d) ∈ setDoc lessonId doc lessons) :
    d = doc := by
  by_cases hm : lessonId ∈ lessons.map Prod.fst
  · rw [setDoc_of_mem _ _ _ hm, List.mem_map] at h
    obtain ⟨e, _, he⟩ := h
    have h1 : e.1 = lessonId := by
      have := congrArg Prod.fst he
      rw [setOne_fst] at this
      exact this
    rw [setOne_of_eq _ _ _ h1] at he
    exact (congrArg Prod.snd he).symm
  · rw [setDoc_of_not_mem _ _ _ hm, List.mem_append, List.mem_singleton] at h
    rcases h with h | h
    · exact absurd (List.mem_map.mpr ⟨(lessonId, d), h, rfl⟩) hm
    · exact congrArg Prod.snd h

theorem lookup_none_of_keys {β : Type} (doc record : List (String × β)) (k : String)
    (hkeys : ∀ x ∈ doc.map Prod.fst, x ∈ record.map Prod.fst)
    (h : record.lookup k = none) : doc.lookup k = none := by
  rw [List.lookup_eq_none_iff] at h ⊢
  intro p hp
  obtain ⟨q, hq, hqk⟩ := List.mem_map.mp (hkeys p.1 (List.mem_map.mpr ⟨p, hp, rfl⟩))
  rw [← hqk]
  exact h q hq

/-- C7, as amended: import is a full replace of the lesson document: for every lesson
id that names a document of the collection `lessons`, when the import of the id with
a record `r2` ends with status 0, whatever an earlier import of the id with a record
`r1` left in the store, `lessons/{id}` holds the fields of `r2` other than `screens`,
`published_at` in the form the importer gives it, and no field that `r2` does not
have. -/
theorem importLessons_full_replace (docPath : String → Option (List String))
    (dateOf : Value → Option Int) (s : Store) (lessonId id : String) (r1 r2 : LessonDoc)
    (hid : docPath lessonId = some [id])
    (hexit : (importLessons docPath dateOf [(lessonId, r2)]
      (importLessons docPath dateOf [(lessonId, r1)] s).store).exit = 0) :
    ∃ doc,
      (importLessons docPath dateOf [(lessonId, r2)]
        (importLessons docPath dateOf [(lessonId, r1)] s).store).store.lessons.lookup id
          = some doc ∧
      (∀ d, (id, d) ∈ (importLessons docPath dateOf [(lessonId, r2)]
        (importLessons docPath dateOf [(lessonId, r1)] s).store).store.lessons → d = doc) ∧
      HoldsFieldsOf dateOf r2 doc ∧
      (∀ k, r2.lookup k = none → doc.lookup k = none) := by
  have hok := seedOps_of_exit docPath dateOf _ _ hexit
  obtain ⟨hok1, _⟩ := seedOps_ok (accepts docPath) dateOf [(lessonId, r2)] hok (lessonId, r2)
    (List.mem_singleton.mpr rfl)
  obtain ⟨_, doc, hconv, hspec, _⟩ := entryOps_ok (accepts docPath) dateOf (lessonId, r2) hok1
  have hfields := holdsFieldsOf_of_convert dateOf r2 doc hconv
  have hops : lessonSets docPath (seedOps (accepts docPath) dateOf [(lessonId, r2)]).1 =
      [(id, doc)] := by
    have h1 : (seedOps (accepts docPath) dateOf [(lessonId, r2)]).1 =
        (entryOps (accepts docPath) dateOf (lessonId, r2)).1 := by
      simp only [seedOps, hok1, if_true, List.append_nil]
    rw [h1, hspec]
    exact lessonSets_specOps docPath (lessonId, r2) doc id hid
  have hstore : (importLessons docPath dateOf [(lessonId, r2)]
      (importLessons docPath dateOf [(lessonId, r1)] s).store).store.lessons =
      setDoc id doc (importLessons docPath dateOf [(lessonId, r1)] s).store.lessons := by
    rw [importLessons_store docPath dateOf [(lessonId, r2)], hops]
    rfl
  rw [hstore]
  refine ⟨doc, lookup_setDoc_self _ _ _, fun d hd => eq_of_mem_setDoc _ _ _ _ hd, hfields, ?_⟩
  intro k hk
  apply lookup_none_of_keys doc r2 k _ hk
  intro x hx
  rw [hfields.1] at hx
  obtain ⟨f, hf, hfx⟩ := List.mem_map.mp hx
  unfold withoutScreens at hf
  exact List.mem_map.mpr ⟨f, (List.mem_filter.mp hf).1, hfx⟩

/-- C8, as amended: in a run of the importer that ends with status 0, for every
lesson record of the seed whose `published_at` is truthy (for a string: not empty),
the lesson document written has as `published_at` the store timestamp of the instant
that the value denotes, not the string; for every record without `published_at` the
document written has no `published_at`; and every lesson document written is the
document of such a record. -/
theorem importLessons_published_at (docPath : String → Option (List String))
    (dateOf : Value → Option Int) (seed : Seed) (s : Store)
    (hexit : (importLessons docPath dateOf seed s).exit = 0) :
    (∀ lessonId record v, (lessonId, record) ∈ seed →
      record.lookup "published_at" = some v → truthy v = true →
        ∃ ms doc, dateOf v = some ms ∧
          Op.setLesson lessonId doc ∈ (importLessons docPath dateOf seed s).trace ∧
          doc.lookup "published_at" = some (Value.scalar (Scalar.timestamp ms)) ∧
          ∀ str, v = Value.scalar (Scalar.string str) → doc.lookup "published_at" ≠ some v) ∧
    (∀ lessonId record, (lessonId, record) ∈ seed → record.lookup "published_at" = none →
        ∃ doc, Op.setLesson lessonId doc ∈ (importLessons docPath dateOf seed s).trace ∧
          doc.lookup "published_at" = none) ∧
    (∀ lessonId doc, Op.setLesson lessonId doc ∈ (importLessons docPath dateOf seed s).trace →
        ∃ record, (lessonId, record) ∈ seed ∧
          (∀ v, record.lookup "published_at" = some v → truthy v = true →
            ∃ ms, dateOf v = some ms ∧
              doc.lookup "published_at" = some (Value.scalar (Scalar.timestamp ms))) ∧
          (record.lookup "published_at" = none → doc.lookup "published_at" = none)) := by
  have hok := seedOps_of_exit docPath dateOf seed s hexit
  obtain ⟨_, htrace, _, _⟩ := importLessons_eq docPath dateOf seed s
  rw [htrace]
  have hrec : ∀ record : LessonDoc,
      (withoutScreens record).lookup "published_at" = record.lookup "published_at" :=
    fun record => lookup_withoutScreens record _ (by decide)
  have hhead : ∀ (entry : String × LessonDoc) (doc : LessonDoc),
      Op.setLesson entry.1 doc ∈ specOps entry doc := fun entry doc => by
    unfold specOps
    exact List.mem_cons_self _ _
  refine ⟨?_, ?_, ?_⟩
  · intro lessonId record v he hv ht
    obtain ⟨hok1, hsub⟩ := seedOps_ok (accepts docPath) dateOf seed hok _ he
    obtain ⟨_, doc, hconv, hspec, _⟩ := entryOps_ok (accepts docPath) dateOf _ hok1
    obtain ⟨_, _, _, _, hts⟩ := convertPublishedAt_eq dateOf _ doc hconv
    obtain ⟨ms, hms, hdoc⟩ := hts v (by rw [hrec]; exact hv) ht
    refine ⟨ms, doc, hms, hsub _ (by rw [hspec]; exact hhead (lessonId, record) doc), hdoc, ?_⟩
    intro str hstr
    rw [hdoc, hstr]
    simp
  · intro lessonId record he hv
    obtain ⟨hok1, hsub⟩ := seedOps_ok (accepts docPath) dateOf seed hok _ he
    obtain ⟨_, doc, hconv, hspec, _⟩ := entryOps_ok (accepts docPath) dateOf _ hok1
    obtain ⟨_, _, hnone, _, _⟩ := convertPublishedAt_eq dateOf _ doc hconv
    have hd := hnone (by rw [hrec]; exact hv)
    exact ⟨doc, hsub _ (by rw [hspec]; exact hhead (lessonId, record) doc),
      by rw [hd, hrec]; exact hv⟩
  · intro lessonId doc hop
    obtain ⟨entry, he, hop1⟩ := seedOps_mem (accepts docPath) dateOf seed _ hop
    obtain ⟨_, doc1, hconv, hcase⟩ := entryOps_mem (accepts docPath) dateOf entry _ hop1
    rcases hcase with h1 | ⟨v, entries, _, _, _, _, h1⟩
    · simp only [Op.setLesson.injEq] at h1
      obtain ⟨hid, hdoc⟩ := h1
      subst hdoc
      obtain ⟨_, _, hnone, _, hts⟩ := convertPublishedAt_eq dateOf _ doc hconv
      refine ⟨entry.2, by rw [hid]; exact he, ?_, ?_⟩
      · intro v hv ht
        exact hts v (by rw [← hv]; exact hrec entry.2) ht
      · intro hv
        have hd := hnone (by rw [← hv]; exact hrec entry.2)
        rw [hd]
        rw [← hv]; exact hrec entry.2
    · exact absurd h1 (by simp)

/-- C7, witness: the lesson `L1` imported with a record that has a `level` field,
then with a record that has none. -/
theorem importLessons_full_replace_witness :
    sampleDocPath "L1" = some ["L1"] ∧
    (importLessons sampleDocPath sampleDateOf [("L1", freshRecord)]
      (importLessons sampleDocPath sampleDateOf [("L1", staleRecord)] emptyStore).store).exit
        = 0 ∧
    ∃ doc,
      (importLessons sampleDocPath sampleDateOf [("L1", freshRecord)]
        (importLessons sampleDocPath sampleDateOf [("L1", staleRecord)]
          emptyStore).store).store.lessons.lookup "L1" = some doc ∧
      (∀ d, ("L1", d) ∈ (importLessons sampleDocPath sampleDateOf [("L1", freshRecord)]
        (importLessons sampleDocPath sampleDateOf [("L1", staleRecord)]
          emptyStore).store).store.lessons → d = doc) ∧
      HoldsFieldsOf sampleDateOf freshRecord doc ∧
      (∀ k, freshRecord.lookup k = none → doc.lookup k = none) :=
  ⟨by decide, by decide,
    importLessons_full_replace sampleDocPath sampleDateOf emptyStore "L1" "L1" staleRecord
      freshRecord (by decide) (by decide)⟩

/-- C7, counterexample: the lesson `L1` imported with a record that has a `level`
field, then with a record whose `published_at` is no date: the second import ends
with status 1 and `lessons/L1` still holds the fields of the first record, `level`
among them, which the second record does not have; and a record whose `published_at`
is a date leaves a timestamp in `lessons/L1`, not the value of the record. -/
theorem importLessons_stale_after_abort :
    undatedRecord =
      [("title", Value.scalar (Scalar.string "New")),
       ("published_at", Value.scalar (Scalar.string "not a date"))] ∧
    sampleDocPath "L1" = some ["L1"] ∧
    (importLessons sampleDocPath sampleDateOf [("L1", staleRecord)] emptyStore).exit = 0 ∧
    (importLessons sampleDocPath sampleDateOf [("L1", undatedRecord)]
      (importLessons sampleDocPath sampleDateOf [("L1", staleRecord)] emptyStore).store).exit
        = 1 ∧
    (importLessons sampleDocPath sampleDateOf [("L1", undatedRecord)]
      (importLessons sampleDocPath sampleDateOf [("L1", staleRecord)]
        emptyStore).store).store.lessons.lookup "L1" =
      some [("title", Value.scalar (Scalar.string "Old")),
            ("level", Value.scalar (Scalar.number 2))] ∧
    undatedRecord.lookup "level" = none ∧
    (importLessons sampleDocPath sampleDateOf datedSeed
      (importLessons sampleDocPath sampleDateOf [("L1", staleRecord)]
        emptyStore).store).store.lessons.lookup "L1" =
      some [("title", Value.scalar (Scalar.string "Intro")),
            ("published_at", Value.scalar (Scalar.timestamp 1705276800000))] ∧
    datedSeed.lookup "L1" =
      some [("title", Value.scalar (Scalar.string "Intro")),
            ("published_at", Value.scalar (Scalar.string "2024-01-15T00:00:00Z"))] := by
  decide

/-- The second import of the witness of C7 leaves the title of the second record alone. -/
theorem full_replace_example :
    (importLessons sampleDocPath sampleDateOf [("L1", staleRecord)] emptyStore).store.lessons =
      [("L1", [("title", Value.scalar (Scalar.string "Old")),
               ("level", Value.scalar (Scalar.number 2))])] ∧
    (importLessons sampleDocPath sampleDateOf [("L1", freshRecord)]
      (importLessons sampleDocPath sampleDateOf [("L1", staleRecord)]
        emptyStore).store).store.lessons =
      [("L1", [("title", Value.scalar (Scalar.string "New"))])] := by
  decide

/-- C8, witness: a seed with a lesson whose `published_at` is `2024-01-15T00:00:00Z`
and a lesson without `published_at`. -/
theorem importLessons_published_at_witness :
    (importLessons sampleDocPath sampleDateOf datedSeed emptyStore).exit = 0 ∧
    (∀ lessonId record v, (lessonId, record) ∈ datedSeed →
      record.lookup "published_at" = some v → truthy v = true →
        ∃ ms doc, sampleDateOf v = some ms ∧
          Op.setLesson lessonId doc ∈
            (importLessons sampleDocPath sampleDateOf datedSeed emptyStore).trace ∧
          doc.lookup "published_at" = some (Value.scalar (Scalar.timestamp ms)) ∧
          ∀ str, v = Value.scalar (Scalar.string str) → doc.lookup "published_at" ≠ some v) :=
  ⟨by decide,
    (importLessons_published_at sampleDocPath sampleDateOf datedSeed emptyStore (by decide)).1⟩

/-- The import of the witness of C8 writes the timestamp of 2024-01-15 for the first
lesson and no `published_at` for the second. -/
theorem published_at_example :
    (importLessons sampleDocPath sampleDateOf datedSeed emptyStore).store.lessons =
      [("L1", [("title", Value.scalar (Scalar.string "Intro")),
               ("published_at", Value.scalar (Scalar.timestamp 1705276800000))]),
       ("L2", [("title", Value.scalar (Scalar.string "Draft"))])] := by
  decide

/-- C8, counterexample: a record whose `published_at` is the empty string is written
with the empty string as `published_at`, whatever the conversion of dates, and the
run ends with status 0. -/
theorem importLessons_empty_published_at :
    emptyDateSeed =
      [("L1", [("title", Value.scalar (Scalar.string "Intro")),
               ("published_at", Value.scalar (Scalar.string ""))])] ∧
    (importLessons sampleDocPath sampleDateOf emptyDateSeed emptyStore).exit = 0 ∧
    (importLessons sampleDocPath sampleDateOf emptyDateSeed emptyStore).trace =
      [Op.setLesson "L1" [("title", Value.scalar (Scalar.string "Intro")),
                          ("published_at", Value.scalar (Scalar.string ""))]] ∧
    (importLessons sampleDocPath sampleDateOf emptyDateSeed emptyStore).store.lessons.lookup
        "L1" =
      some [("title", Value.scalar (Scalar.string "Intro")),
            ("published_at", Value.scalar (Scalar.string ""))] ∧
    (∀ dateOf : Value → Option Int,
      (importLessons sampleDocPath dateOf emptyDateSeed emptyStore).store.lessons.lookup "L1" =
        some [("title", Value.scalar (Scalar.string "Intro")),
              ("published_at", Value.scalar (Scalar.string ""))]) := by
  refine ⟨rfl, by decide, by decide, by decide, fun dateOf => rfl⟩

/-- C10, witness: both scripts without the credential file, on the scenario store. -/
theorem missing_credential_exit_witness :
    noCredentialEnv.credential = Credential.missing ∧
    (fixScreenOrderScript noCredentialEnv.credential scenario2Store).exit = 1 ∧
    (fixScreenOrderScript noCredentialEnv.credential scenario2Store).trace = [] ∧
    (fixScreenOrderScript noCredentialEnv.credential scenario2Store).staged = [] ∧
    (fixScreenOrderScript noCredentialEnv.credential scenario2Store).store = scenario2Store ∧
    (importLessonsScript sampleDocPath sampleDateOf noCredentialEnv scenario2Store).exit = 1 ∧
    (importLessonsScript sampleDocPath sampleDateOf noCredentialEnv scenario2Store).trace = [] ∧
    (importLessonsScript sampleDocPath sampleDateOf noCredentialEnv scenario2Store).staged = [] ∧
    (importLessonsScript sampleDocPath sampleDateOf noCredentialEnv scenario2Store).store =
      scenario2Store :=
  ⟨rfl, missing_credential_exit sampleDocPath sampleDateOf noCredentialEnv scenario2Store rfl⟩

/-- With the credential file in place the scripts reach the store: the importer of the
scenario environment writes the lesson of the scenario seed. -/
theorem valid_credential_example :
    (importLessonsScript sampleDocPath sampleDateOf
        { noCredentialEnv with credential := Credential.valid } emptyStore).exit = 0 ∧
    (importLessonsScript sampleDocPath sampleDateOf
        { noCredentialEnv with credential := Credential.valid } emptyStore).trace ≠ [] ∧
    (fixScreenOrderScript Credential.valid scenario2Store).trace ≠ [] := by
  decide!

end MarketCoach
